import Mathlib

/-!
# x402 payment protocol core — a verification development

Shallow embedding of the x402 HTTP-micropayment protocol core as documented
in the `blockchain-hq/pocket-nodes-website` repository: the payment data
model, the server-side verification pipeline (decode → ordered checks →
replay store commit), the client-side request/pay/retry pipeline with its
guardrail, the wire codec (JSON + base64 header encoding), and the
atomic-unit conversion helpers.

Machine numbers are modelled as `Nat`/`Int`; the one place where the source
genuinely computes with IEEE-754 doubles (`parseFloat(x) * 1e6`) is
modelled by an exact integer emulation of binary64 rounding.
-/

/-! ## Data model

From the "Payment Methods" API reference (`interface SolanaPaymentPayload`,
`interface PaymentPayload`, `interface PaymentRequirements`,
`interface PaymentRequiredResponse`).  The TypeScript field `from` is a
Lean keyword, so it is rendered `fromAddr`.  Optional informational fields
(`description`, `mimeType`, `outputSchema`, `extra`) are omitted: no
documented behaviour reads them.  `maxTimeoutSeconds` does not appear
because every verification snippet compares the proof age against the
protocol constant 300 directly. -/

structure SolanaPaymentPayload where
  signature : String
  fromAddr : String
  amount : String
  mint : String
  timestamp : Int
deriving DecidableEq

/-- The full `X-Payment` payload (`PaymentPayload` in the source). -/
structure PaymentPayload where
  x402Version : Nat
  scheme : String
  network : String
  payload : SolanaPaymentPayload
deriving DecidableEq

/-- One acceptable way to pay (`PaymentRequirements`), required fields only. -/
structure PaymentRequirement where
  scheme : String
  network : String
  maxAmountRequired : String
  resource : String
  payTo : String
  asset : String
deriving DecidableEq

/-- The 402 response body (`PaymentRequiredResponse`). -/
structure PaymentChallenge where
  x402Version : Nat
  accepts : List PaymentRequirement
  error : Option String
deriving DecidableEq

/-! ## Base58 signature-format check

The off-chain pipeline validates only the signature's format: base58-decode
it and require exactly 64 bytes ("Payment Verification", step 9). -/

/-- The bitcoin/solana base58 alphabet. -/
def base58Alphabet : List Char :=
  "123456789ABCDEFGHJKLMNPQRSTUVWXYZabcdefghijkmnopqrstuvwxyz".toList

/-- Digit value of one base58 character, `none` for a character outside the
alphabet. -/
def base58Digit (c : Char) : Option Nat :=
  base58Alphabet.findIdx? (fun d => d = c)

/-- Big-endian base58 read-off of a character list into a natural number. -/
def base58ToNat (cs : List Char) : Option Nat :=
  cs.foldlM (fun acc c => (base58Digit c).map (fun d => acc * 58 + d)) 0

/-- Number of base-256 digits of `n`, with enough fuel for any 64-byte
quantity. -/
def byteLenAux : Nat → Nat → Nat
  | 0, _ => 0
  | fuel + 1, n => if n = 0 then 0 else byteLenAux fuel (n / 256) + 1

/-- Number of bytes in the big-endian base-256 representation of `n`. -/
def byteLen (n : Nat) : Nat := byteLenAux 128 n

/-- Length in bytes of the base58 decoding of `s` (leading `'1'` digits
decode to leading zero bytes), `none` when `s` is not base58. -/
def base58DecodedLength (s : String) : Option Nat :=
  (base58ToNat s.data).map
    (fun v => (s.data.takeWhile (fun c => c = '1')).length + byteLen v)

/-- Step 9 of the off-chain pipeline: `base58Decode(signature).length === 64`. -/
def validSignatureFormat (s : String) : Bool :=
  base58DecodedLength s = some 64

/-! ## Server verification pipeline

From "Payment Verification" (the canonical ordered list of server checks;
the same order appears in the payment-flow walkthrough and the payment
concepts page, which all place the amount check before the asset check and
the duplicate check after the timestamp check).  Structure validation
(step 2) is vacuous in this typed embedding: a `PaymentPayload` value always
has all required fields. -/

/-- The rejection reasons of the ordered pipeline.  `amountMismatch` carries
both amounts, mirroring the template string
"Amount mismatch: expected X, got Y"; `expired` carries the computed age,
mirroring "Payment timestamp too old: X seconds". -/
inductive RejectReason where
  | unsupportedVersion
  | unsupportedScheme
  | networkMismatch
  | amountMismatch (expected got : String)
  | invalidAsset
  | expired (age : Int)
  | invalidSignature
  | alreadyProcessed
deriving DecidableEq

/-- Per-route server configuration: the network the server is on, the
required amount in atomic units, and the USDC mint address. -/
structure ServerConfig where
  network : String
  requiredAmount : String
  usdcMint : String
deriving DecidableEq

/-- Duplicate-detection key of the mock server and of the off-chain
pipeline's step 10: `const paymentId = ${signature}-${timestamp}`. -/
def paymentId (p : SolanaPaymentPayload) : String :=
  p.signature ++ "-" ++ toString p.timestamp

/-- The ordered verification pipeline, returning the first failing check's
reason, or `none` when every check passes.  Checks in source order:
version (3), scheme (4), network (5), amount (6), asset (7), timestamp (8),
signature format (9), duplicate (10). -/
def verifyPayment (cfg : ServerConfig) (now : Int) (usedPayments : List String)
    (pp : PaymentPayload) : Option RejectReason :=
  if pp.x402Version ≠ 1 then some .unsupportedVersion
  else if pp.scheme ≠ "exact" then some .unsupportedScheme
  else if pp.network ≠ cfg.network then some .networkMismatch
  else if pp.payload.amount ≠ cfg.requiredAmount then
    some (.amountMismatch cfg.requiredAmount pp.payload.amount)
  else if pp.payload.mint ≠ cfg.usdcMint then some .invalidAsset
  else if now - pp.payload.timestamp > 300 then
    some (.expired (now - pp.payload.timestamp))
  else if ¬ validSignatureFormat pp.payload.signature then some .invalidSignature
  else if paymentId pp.payload ∈ usedPayments then some .alreadyProcessed
  else none

/-- Step 11, "Mark as Used": `usedPayments.add(paymentId)`. -/
def markUsed (usedPayments : List String) (pp : PaymentPayload) : List String :=
  paymentId pp.payload :: usedPayments

/-- Outcome of one guarded request: the protected handler ran, or a
structured rejection was returned. -/
inductive ServerOutcome where
  | granted
  | rejected (r : RejectReason)
deriving DecidableEq

/-- The `requirePayment` middleware decision for a request that carries a
decoded payment header: run the pipeline; on success mark the payment used
and invoke the wrapped handler, otherwise return the rejection and leave
the store untouched.  Result: (outcome, store after, handler invoked?). -/
def requirePayment (cfg : ServerConfig) (now : Int) (usedPayments : List String)
    (pp : PaymentPayload) : ServerOutcome × List String × Bool :=
  match verifyPayment cfg now usedPayments pp with
  | some r => (.rejected r, usedPayments, false)
  | none => (.granted, markUsed usedPayments pp, true)

/-! ## Concrete fixtures

Values taken from the documentation's running example: the devnet USDC mint,
a 10000-atomic-unit route, and a well-formed 87-character base58 signature
(87 base58 digits of maximal value decode to exactly 64 bytes). -/

/-- The devnet USDC mint address used throughout the documentation. -/
def devnetMint : String := "4zMMC9srt5Ri5X14GAgXhaHii3GnPAEERYPJgZJDncDU"

/-- The documentation's example route: devnet, 0.01 USDC. -/
def cfgD : ServerConfig :=
  { network := "solana-devnet", requiredAmount := "10000", usdcMint := devnetMint }

/-- A base58 string of 87 `'z'` digits; its decoding is `58^87 - 1`, a
64-byte quantity, so it passes the signature-format check. -/
def sigZ : String :=
  "zzzzzzzzzzzzzzzzzzzzzzzzzzzzzzzzzzzzzzzzzzzzzzzzzzzzzzzzzzzzzzzzzzzzzzzzzzzzzzzzzzzzzzz"

/-- A payment proof against `cfgD` with the given signature, amount, mint
and timestamp. -/
def proofD (sig amount mint : String) (ts : Int) : PaymentPayload :=
  { x402Version := 1, scheme := "exact", network := "solana-devnet",
    payload := { signature := sig, fromAddr := "9rKnvE7PVbpq4Ws", amount := amount,
                 mint := mint, timestamp := ts } }

/-! ## Wire encoding: canonical JSON text

`JSON.stringify` output for the fixed shapes the protocol serializes: object
fields in source order, no insignificant whitespace, strings quoted with
`"` and `\\` escaped, integers in decimal.  The serialized text is built
directly as a character list. -/

/-- Decimal digit character. -/
def digitChar (d : Nat) : Char := Char.ofNat (48 + d)

/-- Decimal digits of `n`, most significant first; fuel-driven so the
definition evaluates by kernel reduction (`n` itself is enough fuel). -/
def natDigitsAux : Nat → Nat → List Char
  | 0, _ => []
  | fuel + 1, n => if n = 0 then [] else natDigitsAux fuel (n / 10) ++ [digitChar (n % 10)]

/-- Decimal representation of a natural number. -/
def natDigits (n : Nat) : List Char :=
  if n = 0 then ['0'] else natDigitsAux n n

/-- Decimal representation of an integer. -/
def intDigits (n : Int) : List Char :=
  if n < 0 then '-' :: natDigits n.natAbs else natDigits n.toNat

/-- Numeric value of a list of decimal digit characters. -/
def digitsToNat (ds : List Char) : Nat :=
  ds.foldl (fun a c => 10 * a + (c.toNat - 48)) 0

/-- Reads a non-empty all-digit string as a natural number (`parseInt` on a
canonical atomic-unit amount string). -/
def decToNat? (s : String) : Option Nat :=
  if s.data ≠ [] ∧ s.data.all Char.isDigit then some (digitsToNat s.data) else none

/-- JSON escaping of one character (the two escapes canonical values can
need; control characters are outside the safe fragment, see
`jsonSafeChar`). -/
def escapeChar (c : Char) : List Char :=
  if c = '"' ∨ c = '\\' then ['\\', c] else [c]

/-- A JSON string literal: quote, escaped characters, quote. -/
def stringifyString (s : String) : List Char :=
  '"' :: (s.data.map escapeChar).flatten ++ ['"']

/-- Printable ASCII excluding the two JSON-escaped characters: the fragment
inside which serialization needs no escapes.  Every wire value of the
protocol (base58 strings, decimal amount strings, network and scheme tags,
URLs) lies inside it. -/
def jsonSafeChar (c : Char) : Bool :=
  decide (32 ≤ c.toNat) && decide (c.toNat < 128) && c ≠ '"' && c ≠ '\\'

/-- All characters of `s` are in the safe fragment. -/
def jsonSafeString (s : String) : Bool := s.data.all jsonSafeChar

/-- One `"key":value` member. -/
def jsonField (k : String) (valChars : List Char) : List Char :=
  stringifyString k ++ ':' :: valChars

/-- Comma-separated concatenation. -/
def sepByComma : List (List Char) → List Char
  | [] => []
  | [x] => x
  | x :: y :: rest => x ++ ',' :: sepByComma (y :: rest)

/-- A JSON object from already-serialized members. -/
def jsonObjChars (members : List (List Char)) : List Char :=
  '{' :: sepByComma members ++ ['}']

/-- A JSON array from already-serialized elements. -/
def jsonArrChars (elems : List (List Char)) : List Char :=
  '[' :: sepByComma elems ++ [']']

/-- The canonical signed message of the off-chain proof (payment-flow
steps 8–9): `JSON.stringify({from, amount, mint, timestamp})`. -/
def messageJsonChars (fromAddr amount mint : String) (ts : Int) : List Char :=
  jsonObjChars
    [jsonField "from" (stringifyString fromAddr),
     jsonField "amount" (stringifyString amount),
     jsonField "mint" (stringifyString mint),
     jsonField "timestamp" (intDigits ts)]

/-- `JSON.stringify` of a payment proof, fields in the source's order
(payment-flow step 10). -/
def proofJsonChars (p : PaymentPayload) : List Char :=
  jsonObjChars
    [jsonField "x402Version" (intDigits p.x402Version),
     jsonField "scheme" (stringifyString p.scheme),
     jsonField "network" (stringifyString p.network),
     jsonField "payload" (jsonObjChars
       [jsonField "signature" (stringifyString p.payload.signature),
        jsonField "from" (stringifyString p.payload.fromAddr),
        jsonField "amount" (stringifyString p.payload.amount),
        jsonField "mint" (stringifyString p.payload.mint),
        jsonField "timestamp" (intDigits p.payload.timestamp)])]

/-- `JSON.stringify` of one payment requirement. -/
def requirementJsonChars (r : PaymentRequirement) : List Char :=
  jsonObjChars
    [jsonField "scheme" (stringifyString r.scheme),
     jsonField "network" (stringifyString r.network),
     jsonField "maxAmountRequired" (stringifyString r.maxAmountRequired),
     jsonField "resource" (stringifyString r.resource),
     jsonField "payTo" (stringifyString r.payTo),
     jsonField "asset" (stringifyString r.asset)]

/-- `JSON.stringify` of the 402 challenge body:
`{x402Version, accepts: [...], error}`. -/
def challengeJsonChars (c : PaymentChallenge) : List Char :=
  jsonObjChars
    [jsonField "x402Version" (intDigits c.x402Version),
     jsonField "accepts" (jsonArrChars (c.accepts.map requirementJsonChars)),
     jsonField "error"
       (match c.error with
        | none => ['n', 'u', 'l', 'l']
        | some e => stringifyString e)]

/-! ## Base64 (the `btoa`/`atob` pair used for the `X-Payment` header) -/

/-- The standard base64 alphabet. -/
def base64Alphabet : List Char :=
  "ABCDEFGHIJKLMNOPQRSTUVWXYZabcdefghijklmnopqrstuvwxyz0123456789+/".toList

/-- Character for one sextet. -/
def b64Char (n : Nat) : Char := base64Alphabet.getD n 'A'

/-- Sextet for one character, `none` outside the alphabet. -/
def b64Val (c : Char) : Option Nat := base64Alphabet.findIdx? (fun d => d = c)

/-- Standard base64 of a byte sequence, with `=` padding. -/
def b64EncodeBytes : List Nat → List Char
  | [] => []
  | [b1] => [b64Char (b1 / 4), b64Char (b1 % 4 * 16), '=', '=']
  | [b1, b2] => [b64Char (b1 / 4), b64Char (b1 % 4 * 16 + b2 / 16), b64Char (b2 % 16 * 4), '=']
  | b1 :: b2 :: b3 :: rest =>
      b64Char (b1 / 4) :: b64Char (b1 % 4 * 16 + b2 / 16) ::
        b64Char (b2 % 16 * 4 + b3 / 64) :: b64Char (b3 % 64) :: b64EncodeBytes rest

/-- Base64 decoding, strict about padding and alphabet. -/
def b64DecodeBytes : List Char → Option (List Nat)
  | [] => some []
  | a :: b :: c :: d :: rest =>
      if rest = [] ∧ d = '=' then do
        let x ← b64Val a
        let y ← b64Val b
        if c = '=' then
          pure [x * 4 + y / 16]
        else do
          let z ← b64Val c
          pure [x * 4 + y / 16, y % 16 * 16 + z / 4]
      else do
        let x ← b64Val a
        let y ← b64Val b
        let z ← b64Val c
        let w ← b64Val d
        let tl ← b64DecodeBytes rest
        pure ((x * 4 + y / 16) :: (y % 16 * 16 + z / 4) :: (z % 4 * 64 + w) :: tl)
  | _ => none

/-- Client encoding of the payment header (payment-flow step 11):
`base64Encode(JSON.stringify(paymentPayload))`. -/
def encodePaymentHeader (p : PaymentPayload) : String :=
  String.mk (b64EncodeBytes ((proofJsonChars p).map Char.toNat))

/-- Server serialization of the 402 challenge body. -/
def encodeChallenge (c : PaymentChallenge) : String :=
  String.mk (challengeJsonChars c)

/-! ## Client pipeline

From the payment-flow walkthrough (steps 3 and 5–12) and the client node
reference: detect 402, parse the challenge, pick the first offered
requirement, enforce the spending limit, build and sign the proof, retry
once with the `X-Payment` header.  The Signer and Ledger capabilities are
passed as functions and every invocation of either is counted, so "never
invoked" is a statement about the returned counts. -/

deriving instance DecidableEq for Except

/-- Errors surfaced by the client. -/
inductive ClientError where
  | parseError
  | invalidAmount
  | exceedsLimit (required maxAllowed : Nat)
deriving DecidableEq

/-- Collaborator invocation counts observed during one run. -/
structure ClientEvents where
  signerCalls : Nat
  ledgerCalls : Nat
  retriedRequests : Nat
deriving DecidableEq

/-- The two client payment formats: `official` signs the canonical message
off-chain; `legacy` asks the Ledger to submit an on-chain transfer and uses
the transaction signature as the proof. -/
inductive ProtocolFormat where
  | official
  | legacy
deriving DecidableEq

/-- PaymentBuilder: the spending-limit guardrail (step 6), then proof
construction and signing (steps 8–10).  `sign` is the Signer capability,
`submitTransfer from to amount asset` the Ledger capability.  Amounts are
compared in atomic units; the source compares the same two quantities after
converting both to display units. -/
def buildPayment (req : PaymentRequirement) (maxWillingToPay : Nat)
    (walletAddress : String) (sign : String → String)
    (submitTransfer : String → String → Nat → String → String)
    (format : ProtocolFormat) (now : Int) :
    Except ClientError PaymentPayload × ClientEvents :=
  match decToNat? req.maxAmountRequired with
  | none => (.error .invalidAmount, ⟨0, 0, 0⟩)
  | some required =>
    if required > maxWillingToPay then
      (.error (.exceedsLimit required maxWillingToPay), ⟨0, 0, 0⟩)
    else
      match format with
      | .official =>
        let message := String.mk
          (messageJsonChars walletAddress req.maxAmountRequired req.asset now)
        (.ok { x402Version := 1, scheme := req.scheme, network := req.network,
               payload := { signature := sign message, fromAddr := walletAddress,
                            amount := req.maxAmountRequired, mint := req.asset,
                            timestamp := now } }, ⟨1, 0, 0⟩)
      | .legacy =>
        (.ok { x402Version := 1, scheme := req.scheme, network := req.network,
               payload := { signature := submitTransfer walletAddress req.payTo required req.asset,
                            fromAddr := walletAddress,
                            amount := req.maxAmountRequired, mint := req.asset,
                            timestamp := now } }, ⟨0, 1, 0⟩)

/-- A transport response: status plus the decoded challenge body when one is
present and parseable. -/
structure HttpResponse where
  status : Nat
  challenge : Option PaymentChallenge
deriving DecidableEq

/-- States of the client's request/pay/retry machine. -/
inductive ClientState where
  | requested
  | challengeReceived
  | paying
  | retried
  | completed
  | failed
deriving DecidableEq

/-- ProtocolClient: one full request.  `transport` is the HTTP capability:
it is called with `none` for the initial unauthenticated request and with
`some proof` for the paid retry.  Returns the result, the collaborator
counts, the number of PaymentBuilder invocations, and the state trace. -/
def clientRun (transport : Option PaymentPayload → HttpResponse)
    (maxWillingToPay : Nat) (walletAddress : String) (sign : String → String)
    (submitTransfer : String → String → Nat → String → String)
    (format : ProtocolFormat) (now : Int) :
    Except ClientError HttpResponse × ClientEvents × Nat × List ClientState :=
  let initial := transport none
  if initial.status ≠ 402 then
    (.ok initial, ⟨0, 0, 0⟩, 0, [.requested, .completed])
  else
    match initial.challenge with
    | none => (.error .parseError, ⟨0, 0, 0⟩, 0, [.requested, .failed])
    | some ch =>
      match ch.accepts.head? with
      | none => (.error .parseError, ⟨0, 0, 0⟩, 0, [.requested, .challengeReceived, .failed])
      | some req =>
        match buildPayment req maxWillingToPay walletAddress sign submitTransfer format now with
        | (.error e, ev) =>
            (.error e, ev, 1, [.requested, .challengeReceived, .failed])
        | (.ok proof, ev) =>
            (.ok (transport (some proof)),
             { ev with retriedRequests := 1 }, 1,
             [.requested, .challengeReceived, .paying, .retried, .completed])

/-! ## Atomic-unit conversion and the binary64 emulation

`verifyUserPayment` computes `BigInt(parseFloat(expectedUsdcAmount) * 1e6)`
and `toAtomicUnits` computes `(parseFloat(usdc) * 1e6).toString()`: IEEE-754
double-precision arithmetic.  The emulation below is exact: a non-negative
binary64 value is a pair `m * 2^e`, `parseFloat` rounds the exact decimal
rational to 53 significant bits (round half to even), multiplication rounds
the exact product the same way, and `BigInt` is defined only on integral
values — `none` models the `RangeError` it throws otherwise. -/

/-- Bit length of `n` (fuel-driven so it evaluates by kernel reduction). -/
def bitLenAux : Nat → Nat → Nat
  | 0, _ => 0
  | fuel + 1, n => if n = 0 then 0 else bitLenAux fuel (n / 2) + 1

/-- Number of binary digits of `n`. -/
def bitLen (n : Nat) : Nat := bitLenAux n n

/-- Round `a / b` to the nearest integer, half to even. -/
def rheDiv (a b : Nat) : Nat :=
  let q := a / b
  let r := a % b
  if 2 * r < b then q
  else if b < 2 * r then q + 1
  else if q % 2 = 0 then q else q + 1

/-- A non-negative binary64 value `m * 2^e` (normal range; all quantities in
scope are far from overflow and subnormals). -/
structure Binary64 where
  m : Nat
  e : Int
deriving DecidableEq

/-- Round the exact rational `num / den` (`den ≠ 0`) to the nearest binary64
value: scale to 53 significant bits and round half to even, re-rounding one
position higher when the first attempt carries past 53 bits. -/
def roundRatToDouble (num den : Nat) : Binary64 :=
  if num = 0 then ⟨0, 0⟩
  else
    let t : Int := (bitLen num : Int) - (bitLen den : Int)
    let s : Int := 53 - t
    let mAt : Int → Nat := fun k =>
      if 0 ≤ k then rheDiv (num * 2 ^ k.toNat) den else rheDiv num (den * 2 ^ (-k).toNat)
    if mAt s < 2 ^ 53 then ⟨mAt s, -s⟩ else ⟨mAt (s - 1), -(s - 1)⟩

/-- Binary64 multiplication: exact product, rounded to 53 significant bits. -/
def mulDouble (a b : Binary64) : Binary64 :=
  if a.m = 0 ∨ b.m = 0 then ⟨0, 0⟩
  else
    let p := a.m * b.m
    let bl := bitLen p
    if bl ≤ 53 then ⟨p, a.e + b.e⟩
    else ⟨rheDiv p (2 ^ (bl - 53)), a.e + b.e + (bl - 53 : Nat)⟩

/-- Splits a character list at the first `'.'`, if any. -/
def breakAtDot : List Char → List Char × Option (List Char)
  | [] => ([], none)
  | c :: r =>
    if c = '.' then ([], some r)
    else
      let p := breakAtDot r
      (c :: p.1, p.2)

/-- Reads a non-negative decimal literal (optionally with a fractional part)
as an exact rational `(numerator, denominator)`. -/
def parseDecimal? (s : String) : Option (Nat × Nat) :=
  match breakAtDot s.data with
  | (ip, none) =>
    if ip ≠ [] ∧ ip.all Char.isDigit then some (digitsToNat ip, 1) else none
  | (ip, some fp) =>
    if ip ≠ [] ∧ ip.all Char.isDigit ∧ fp ≠ [] ∧ fp.all Char.isDigit then
      some (digitsToNat ip * 10 ^ fp.length + digitsToNat fp, 10 ^ fp.length)
    else none

/-- `parseFloat` on a non-negative decimal literal: the nearest binary64. -/
def parseFloatDouble (s : String) : Option Binary64 :=
  (parseDecimal? s).map (fun p => roundRatToDouble p.1 p.2)

/-- `BigInt(x)` on a binary64 value: its exact integer when it is integral,
`none` for the `RangeError` thrown on a fractional value. -/
def doubleToInt? (f : Binary64) : Option Nat :=
  if 0 ≤ f.e then some (f.m * 2 ^ f.e.toNat)
  else if f.m % 2 ^ (-f.e).toNat = 0 then some (f.m / 2 ^ (-f.e).toNat)
  else none

/-- The conversion the verification reference and the client helper apply to
a display amount: `BigInt(parseFloat(expectedUsdcAmount) * 1e6)`
(equivalently `parseFloat(usdc) * 1e6` before stringifying). -/
def toAtomicUnits (s : String) : Option Nat :=
  (parseFloatDouble s).bind (fun d => doubleToInt? (mulDouble d ⟨1000000, 0⟩))

/-- The documented conversion law ("Conversion Formula":
`smallestUnits = usdc * 1_000_000`), computed exactly over rationals —
this is the spec-side definition `toAtomicUnits` is compared against. -/
def exactAtomicUnits (s : String) : Option Nat :=
  (parseDecimal? s).bind (fun p =>
    if p.1 * 1000000 % p.2 = 0 then some (p.1 * 1000000 / p.2) else none)

/-! ## Client-side fixtures -/

/-- The documentation's example requirement: 0.01 USDC on devnet. -/
def reqD : PaymentRequirement :=
  { scheme := "exact", network := "solana-devnet", maxAmountRequired := "10000",
    resource := "/api/data", payTo := "HgWtto74ZqPAF1", asset := devnetMint }

/-- A fresh challenge offering `reqD`. -/
def chalD : PaymentChallenge := { x402Version := 1, accepts := [reqD], error := none }

/-- A transport for a paid endpoint: 402 with `chalD` on the bare request,
200 once a payment header is attached. -/
def transport402 (o : Option PaymentPayload) : HttpResponse :=
  match o with
  | none => { status := 402, challenge := some chalD }
  | some _ => { status := 200, challenge := none }

/-- A transport for a free endpoint: 200 immediately. -/
def transportFree (_ : Option PaymentPayload) : HttpResponse :=
  { status := 200, challenge := none }

/-- A concrete Signer capability. -/
def signD (_ : String) : String := sigZ

/-- A concrete Ledger capability. -/
def ledgerD (_ : String) (_ : String) (_ : Nat) (_ : String) : String := "TXSIG"

/-! ## Wire decoding: a JSON parser

`JSON.parse` restricted to the protocol's wire fragment: integer numerals
(the only numbers any message carries), strings with the two escapes the
serializer can emit, and no insignificant whitespace (`JSON.stringify`
never produces any, and the decoders only ever receive encoder output).
The parser is fuel-driven — one unit per grammar step, structurally
recursive so that it evaluates by kernel reduction; the top level grants
fuel beyond any input's needs. -/

/-- Parsed JSON values. -/
inductive Json where
  | null
  | bool (b : Bool)
  | num (n : Int)
  | str (s : String)
  | arr (elems : List Json)
  | obj (fields : List (String × Json))

def parseStringBody : List Char → Option (List Char × List Char)
  | [] => none
  | c :: rest =>
    if c = '"' then some ([], rest)
    else if c = '\\' then
      match rest with
      | [] => none
      | e :: rest2 =>
        if e = '"' ∨ e = '\\' then
          (parseStringBody rest2).map (fun p => (e :: p.1, p.2))
        else none
    else (parseStringBody rest).map (fun p => (c :: p.1, p.2))

def parseKeyString : List Char → Option (String × List Char)
  | [] => none
  | c :: rest =>
    if c = '"' then (parseStringBody rest).map (fun p => (String.mk p.1, p.2)) else none

def parseNatPart (l : List Char) : Option (Nat × List Char) :=
  let ds := l.takeWhile Char.isDigit
  if ds = [] then none else some (digitsToNat ds, l.dropWhile Char.isDigit)

def parseIntPart : List Char → Option (Int × List Char)
  | [] => none
  | c :: rest =>
    if c = '-' then (parseNatPart rest).map (fun p => (-(p.1 : Int), p.2))
    else (parseNatPart (c :: rest)).map (fun p => ((p.1 : Int), p.2))

def dropLit : List Char → List Char → Option (List Char)
  | [], l => some l
  | _ :: _, [] => none
  | p :: ps, c :: rest => if c = p then dropLit ps rest else none

def expectColon : List Char → Option (List Char)
  | [] => none
  | c :: r => if c = ':' then some r else none

mutual

def parseValue : Nat → List Char → Option (Json × List Char)
  | 0, _ => none
  | fuel + 1, l =>
    match l with
    | [] => none
    | c :: r =>
      if c = '{' then (parseFields fuel r).map (fun p => (Json.obj p.1, p.2))
      else if c = '[' then (parseElems fuel r).map (fun p => (Json.arr p.1, p.2))
      else if c = '"' then (parseStringBody r).map (fun p => (Json.str (String.mk p.1), p.2))
      else if c = 'n' then (dropLit ['u', 'l', 'l'] r).map (fun rest => (Json.null, rest))
      else if c = 't' then (dropLit ['r', 'u', 'e'] r).map (fun rest => (Json.bool true, rest))
      else if c = 'f' then (dropLit ['a', 'l', 's', 'e'] r).map (fun rest => (Json.bool false, rest))
      else (parseIntPart (c :: r)).map (fun p => (Json.num p.1, p.2))

def parseElems : Nat → List Char → Option (List Json × List Char)
  | 0, _ => none
  | fuel + 1, l =>
    match l with
    | [] => none
    | c :: r =>
      if c = ']' then some ([], r)
      else do
        let (v, r1) ← parseValue fuel (c :: r)
        let (vs, r2) ← parseElemsMore fuel r1
        pure (v :: vs, r2)

def parseElemsMore : Nat → List Char → Option (List Json × List Char)
  | 0, _ => none
  | fuel + 1, l =>
    match l with
    | [] => none
    | c :: r =>
      if c = ']' then some ([], r)
      else if c = ',' then do
        let (v, r1) ← parseValue fuel r
        let (vs, r2) ← parseElemsMore fuel r1
        pure (v :: vs, r2)
      else none

def parseFields : Nat → List Char → Option (List (String × Json) × List Char)
  | 0, _ => none
  | fuel + 1, l =>
    match l with
    | [] => none
    | c :: r =>
      if c = '}' then some ([], r)
      else do
        let (k, r1) ← parseKeyString (c :: r)
        let r2 ← expectColon r1
        let (v, r3) ← parseValue fuel r2
        let (fs, r4) ← parseFieldsMore fuel r3
        pure ((k, v) :: fs, r4)

def parseFieldsMore : Nat → List Char → Option (List (String × Json) × List Char)
  | 0, _ => none
  | fuel + 1, l =>
    match l with
    | [] => none
    | c :: r =>
      if c = '}' then some ([], r)
      else if c = ',' then do
        let (k, r1) ← parseKeyString r
        let r2 ← expectColon r1
        let (v, r3) ← parseValue fuel r2
        let (fs, r4) ← parseFieldsMore fuel r3
        pure ((k, v) :: fs, r4)
      else none

end

def jsonParse (cs : List Char) : Option Json :=
  match parseValue (cs.length + 1) cs with
  | some (j, []) => some j
  | _ => none


/-! ## Decoding into the typed messages

The zod-validated extractions of `parse402PaymentHeader` and
`parse402Response`: every required field must be present with the right
type, and a challenge must offer at least one requirement. -/

/-- String payload of a JSON value. -/
def jStr? : Json → Option String
  | .str s => some s
  | _ => none

/-- Integer payload of a JSON value. -/
def jInt? : Json → Option Int
  | .num n => some n
  | _ => none

/-- Non-negative integer payload of a JSON value. -/
def jNat? : Json → Option Nat
  | .num n => if 0 ≤ n then some n.toNat else none
  | _ => none

/-- Element list of a JSON array. -/
def jArr? : Json → Option (List Json)
  | .arr xs => some xs
  | _ => none

/-- Field list of a JSON object. -/
def jObj? : Json → Option (List (String × Json))
  | .obj fs => some fs
  | _ => none

/-- First binding of `k` in an object's field list. -/
def jLookup (fs : List (String × Json)) (k : String) : Option Json :=
  match fs with
  | [] => none
  | (k2, v) :: rest => if k2 = k then some v else jLookup rest k

/-- The inner `payload` object of a payment proof. -/
def payloadFromJson (j : Json) : Option SolanaPaymentPayload := do
  let fs ← jObj? j
  let signature ← (jLookup fs "signature").bind jStr?
  let fromAddr ← (jLookup fs "from").bind jStr?
  let amount ← (jLookup fs "amount").bind jStr?
  let mint ← (jLookup fs "mint").bind jStr?
  let timestamp ← (jLookup fs "timestamp").bind jInt?
  pure { signature, fromAddr, amount, mint, timestamp }

/-- A payment proof from parsed JSON, all required fields enforced. -/
def proofFromJson (j : Json) : Option PaymentPayload := do
  let fs ← jObj? j
  let v ← (jLookup fs "x402Version").bind jNat?
  let scheme ← (jLookup fs "scheme").bind jStr?
  let network ← (jLookup fs "network").bind jStr?
  let payload ← (jLookup fs "payload").bind payloadFromJson
  pure { x402Version := v, scheme, network, payload }

/-- A payment requirement from parsed JSON. -/
def requirementFromJson (j : Json) : Option PaymentRequirement := do
  let fs ← jObj? j
  let scheme ← (jLookup fs "scheme").bind jStr?
  let network ← (jLookup fs "network").bind jStr?
  let maxAmountRequired ← (jLookup fs "maxAmountRequired").bind jStr?
  let resource ← (jLookup fs "resource").bind jStr?
  let payTo ← (jLookup fs "payTo").bind jStr?
  let asset ← (jLookup fs "asset").bind jStr?
  pure { scheme, network, maxAmountRequired, resource, payTo, asset }

/-- Reads every element of a parsed array as a payment requirement. -/
def requirementsFromJson : List Json → Option (List PaymentRequirement)
  | [] => some []
  | j :: rest => do
    let r ← requirementFromJson j
    let rs ← requirementsFromJson rest
    pure (r :: rs)

/-- A challenge from parsed JSON; fails when `accepts` is missing or
empty, and reads `error` as null-or-string (absent counts as null). -/
def challengeFromJson (j : Json) : Option PaymentChallenge := do
  let fs ← jObj? j
  let v ← (jLookup fs "x402Version").bind jNat?
  let arr ← (jLookup fs "accepts").bind jArr?
  let accepts ← requirementsFromJson arr
  if accepts = [] then none
  else do
    let error ←
      match jLookup fs "error" with
      | none => some none
      | some .null => some none
      | some (.str e) => some (some e)
      | some _ => none
    pure { x402Version := v, accepts := accepts, error := error }

/-- Server decoding of the `X-Payment` header (payment-flow step 13):
base64-decode, parse the JSON, extract and validate the payload. -/
def decodePaymentHeader (header : String) : Option PaymentPayload := do
  let bytes ← b64DecodeBytes header.data
  let j ← jsonParse (bytes.map Char.ofNat)
  proofFromJson j

/-- Client decoding of a 402 challenge body (`parse402Response`). -/
def decodeChallenge (body : String) : Option PaymentChallenge :=
  (jsonParse body.data).bind challengeFromJson

/-- A proof all of whose string fields lie in the escape-free fragment:
the validity condition of the round-trip law (base58 signatures and
addresses, decimal amounts and ASCII tags always satisfy it). -/
def proofEncodable (p : PaymentPayload) : Bool :=
  jsonSafeString p.scheme && jsonSafeString p.network &&
  jsonSafeString p.payload.signature && jsonSafeString p.payload.fromAddr &&
  jsonSafeString p.payload.amount && jsonSafeString p.payload.mint

/-- A requirement all of whose fields lie in the escape-free fragment. -/
def requirementEncodable (r : PaymentRequirement) : Bool :=
  jsonSafeString r.scheme && jsonSafeString r.network &&
  jsonSafeString r.maxAmountRequired && jsonSafeString r.resource &&
  jsonSafeString r.payTo && jsonSafeString r.asset

/-- A valid challenge: at least one offered requirement (a challenge's
`accepts` is a non-empty sequence), every field in the safe fragment. -/
def challengeEncodable (c : PaymentChallenge) : Bool :=
  decide (c.accepts ≠ []) && c.accepts.all requirementEncodable &&
  (match c.error with
   | none => true
   | some e => jsonSafeString e)

/-! ## Round-trip infrastructure: canonical JSON values and the
chunk-parsing predicate used to prove the codec round-trip law (C6) -/

/-- A rest list that does not begin with a decimal digit; numeral parsing
stops exactly at the numeral's end against such a suffix. -/
def NonDigitStart (l : List Char) : Prop :=
  ∀ c, l.head? = some c → c.isDigit = false

/-- The parse property of a serialized value chunk: with at least `b` fuel,
parsing the chunk followed by any suffix that does not begin with a digit
yields exactly its value and that suffix. -/
def ChunkP (b : Nat) (cs : List Char) (v : Json) : Prop :=
  ∀ fuel, b ≤ fuel → ∀ rest, NonDigitStart rest →
    parseValue fuel (cs ++ rest) = some (v, rest)

/-- The serialized member of one field triple (key, value chunk, value). -/
def fieldChunk (it : String × List Char × Json) : List Char :=
  jsonField it.1 it.2.1

/-- The serialized continuation after a first member: `,k:v` pairs then the
closing brace. -/
def moreFieldsChars (items : List (String × List Char × Json)) : List Char :=
  items.flatMap (fun it => ',' :: fieldChunk it) ++ ['}']

/-- The serialized continuation after a first array element. -/
def moreElemsChars (items : List (List Char × Json)) : List Char :=
  items.flatMap (fun it => ',' :: it.1) ++ [']']

/-- The JSON value `JSON.parse` yields for a serialized payload. -/
def payloadJson (q : SolanaPaymentPayload) : Json :=
  .obj [("signature", .str q.signature), ("from", .str q.fromAddr),
        ("amount", .str q.amount), ("mint", .str q.mint),
        ("timestamp", .num q.timestamp)]

/-- The JSON value for a serialized proof. -/
def proofJson (p : PaymentPayload) : Json :=
  .obj [("x402Version", .num p.x402Version), ("scheme", .str p.scheme),
        ("network", .str p.network), ("payload", payloadJson p.payload)]

/-- The JSON value for a serialized requirement. -/
def requirementJson (r : PaymentRequirement) : Json :=
  .obj [("scheme", .str r.scheme), ("network", .str r.network),
        ("maxAmountRequired", .str r.maxAmountRequired), ("resource", .str r.resource),
        ("payTo", .str r.payTo), ("asset", .str r.asset)]

/-- The JSON value for a serialized challenge. -/
def challengeJson (c : PaymentChallenge) : Json :=
  .obj [("x402Version", .num c.x402Version),
        ("accepts", .arr (c.accepts.map requirementJson)),
        ("error", match c.error with | none => .null | some e => .str e)]

/-! ## Theorems about the server pipeline -/

/-- C9: a payment proof passes verification only if its `x402Version` equals
the protocol version 1 carried by every challenge, and a proof whose version
is present but different is rejected with the unsupported-version reason. -/
theorem c9_version_check (cfg : ServerConfig) (now : Int) (used : List String)
    (pp : PaymentPayload) :
    (verifyPayment cfg now used pp = none → pp.x402Version = 1) ∧
    (pp.x402Version ≠ 1 → verifyPayment cfg now used pp = some .unsupportedVersion) := by
  constructor
  · intro h
    by_contra hv
    simp [verifyPayment, hv] at h
  · intro hv
    simp [verifyPayment, hv]

/-- C9 witness: a version-2 proof is rejected as unsupported version. -/
theorem c9_version_check_witness :
    verifyPayment cfgD 1000 []
      { proofD sigZ "10000" devnetMint 900 with x402Version := 2 } =
      some .unsupportedVersion :=
  (c9_version_check cfgD 1000 [] _).2 (by decide)

/-- C2: under the exact scheme (with the version, scheme and network checks
passing), the amount check accepts exactly when the proof's amount equals
the required amount — over- and under-payment alike are rejected — and on
inequality the rejection reason is an amount mismatch carrying both the
required and the provided amount. -/
theorem c2_amount_check_exact_equality (cfg : ServerConfig) (now : Int)
    (used : List String) (pp : PaymentPayload)
    (hv : pp.x402Version = 1) (hs : pp.scheme = "exact") (hn : pp.network = cfg.network) :
    (pp.payload.amount ≠ cfg.requiredAmount →
      verifyPayment cfg now used pp =
        some (.amountMismatch cfg.requiredAmount pp.payload.amount)) ∧
    (pp.payload.amount = cfg.requiredAmount →
      ∀ e g, verifyPayment cfg now used pp ≠ some (.amountMismatch e g)) := by
  constructor
  · intro hne
    simp [verifyPayment, hv, hs, hn, hne]
  · intro heq e g
    simp only [verifyPayment, hv, hs, hn, heq]
    split_ifs <;> simp_all

/-- C2 witness: an underpaying proof (5000 against 10000) is rejected with
an amount mismatch carrying both amounts. -/
theorem c2_amount_check_exact_equality_witness :
    verifyPayment cfgD 1000 [] (proofD sigZ "5000" devnetMint 900) =
      some (.amountMismatch "10000" "5000") :=
  (c2_amount_check_exact_equality cfgD 1000 [] _ rfl rfl rfl).1 (by decide)

/-- C4 counterexample: a proof failing both the asset check and the amount
check is reported with the amount check's reason, not the asset check's, so
the claimed order (asset before amount) is false on the code. -/
theorem c4_asset_before_amount_counterexample :
    (proofD sigZ "5000" "WrongMint1111" 900).payload.mint ≠ cfgD.usdcMint ∧
    (proofD sigZ "5000" "WrongMint1111" 900).payload.amount ≠ cfgD.requiredAmount ∧
    verifyPayment cfgD 1000 [] (proofD sigZ "5000" "WrongMint1111" 900) =
      some (.amountMismatch "10000" "5000") ∧
    verifyPayment cfgD 1000 [] (proofD sigZ "5000" "WrongMint1111" 900) ≠
      some .invalidAsset := by
  refine ⟨by decide, by decide, by decide, by decide⟩

/-- C4 (amended): the verifier is fail-fast in the code's order — version,
scheme, network, amount, asset, timestamp, signature format, duplicate —
reporting the earliest failing check; in particular a proof failing both the
asset and the amount check is reported with the amount check's reason. -/
theorem c4_fail_fast_order (cfg : ServerConfig) (now : Int) (used : List String)
    (pp : PaymentPayload) :
    (pp.x402Version ≠ 1 → verifyPayment cfg now used pp = some .unsupportedVersion) ∧
    (pp.x402Version = 1 → pp.scheme ≠ "exact" →
      verifyPayment cfg now used pp = some .unsupportedScheme) ∧
    (pp.x402Version = 1 → pp.scheme = "exact" → pp.network ≠ cfg.network →
      verifyPayment cfg now used pp = some .networkMismatch) ∧
    (pp.x402Version = 1 → pp.scheme = "exact" → pp.network = cfg.network →
      pp.payload.amount ≠ cfg.requiredAmount →
      verifyPayment cfg now used pp =
        some (.amountMismatch cfg.requiredAmount pp.payload.amount)) ∧
    (pp.x402Version = 1 → pp.scheme = "exact" → pp.network = cfg.network →
      pp.payload.amount = cfg.requiredAmount → pp.payload.mint ≠ cfg.usdcMint →
      verifyPayment cfg now used pp = some .invalidAsset) ∧
    (pp.x402Version = 1 → pp.scheme = "exact" → pp.network = cfg.network →
      pp.payload.amount = cfg.requiredAmount → pp.payload.mint = cfg.usdcMint →
      now - pp.payload.timestamp > 300 →
      verifyPayment cfg now used pp = some (.expired (now - pp.payload.timestamp))) ∧
    (pp.x402Version = 1 → pp.scheme = "exact" → pp.network = cfg.network →
      pp.payload.amount = cfg.requiredAmount → pp.payload.mint = cfg.usdcMint →
      ¬ now - pp.payload.timestamp > 300 →
      ¬ validSignatureFormat pp.payload.signature = true →
      verifyPayment cfg now used pp = some .invalidSignature) ∧
    (pp.x402Version = 1 → pp.scheme = "exact" → pp.network = cfg.network →
      pp.payload.amount = cfg.requiredAmount → pp.payload.mint = cfg.usdcMint →
      ¬ now - pp.payload.timestamp > 300 →
      validSignatureFormat pp.payload.signature = true →
      paymentId pp.payload ∈ used →
      verifyPayment cfg now used pp = some .alreadyProcessed) ∧
    (pp.x402Version = 1 → pp.scheme = "exact" → pp.network = cfg.network →
      pp.payload.amount = cfg.requiredAmount → pp.payload.mint = cfg.usdcMint →
      ¬ now - pp.payload.timestamp > 300 →
      validSignatureFormat pp.payload.signature = true →
      paymentId pp.payload ∉ used →
      verifyPayment cfg now used pp = none) := by
  refine ⟨?_, ?_, ?_, ?_, ?_, ?_, ?_, ?_, ?_⟩ <;>
    (intros; simp [verifyPayment, *])

/-- C4 witness: a proof failing amount (7000 vs 10000), asset and freshness
at once is reported with the amount check's reason. -/
theorem c4_fail_fast_order_witness :
    verifyPayment cfgD 5000 [] (proofD sigZ "7000" "OtherMint2222" 100) =
      some (.amountMismatch "10000" "7000") :=
  (c4_fail_fast_order cfgD 5000 [] _).2.2.2.1 rfl rfl rfl (by decide)

/-- C5 (amended): holding the earlier checks valid, the freshness check
rejects a proof as expired exactly when `now - timestamp > 300` (the
protocol's `maxTimeoutSeconds` default); a future-dated timestamp is never
rejected by the freshness check. The boundaries hold:
`timestamp = now - 301` is expired and `timestamp = now - 299` is fresh. -/
theorem c5_freshness_window (cfg : ServerConfig) (now : Int) (used : List String)
    (pp : PaymentPayload)
    (hv : pp.x402Version = 1) (hs : pp.scheme = "exact") (hn : pp.network = cfg.network)
    (ha : pp.payload.amount = cfg.requiredAmount) (hm : pp.payload.mint = cfg.usdcMint) :
    (now - pp.payload.timestamp > 300 →
      verifyPayment cfg now used pp = some (.expired (now - pp.payload.timestamp))) ∧
    (validSignatureFormat pp.payload.signature = true →
      paymentId pp.payload ∉ used →
      (verifyPayment cfg now used pp = none ↔ now - pp.payload.timestamp ≤ 300)) := by
  constructor
  · intro hgt
    simp [verifyPayment, hv, hs, hn, ha, hm, hgt]
  · intro hsig hdup
    constructor
    · intro h
      by_contra hgt
      push_neg at hgt
      simp [verifyPayment, hv, hs, hn, ha, hm, hgt] at h
    · intro hle
      have hgt : ¬ now - pp.payload.timestamp > 300 := by omega
      simp [verifyPayment, hv, hs, hn, ha, hm, hgt, hsig, hdup]

set_option maxRecDepth 40000 in
/-- C5 witness: with all other fields valid, a proof aged 301 seconds is
rejected as expired and a proof aged 299 seconds is accepted. -/
theorem c5_freshness_window_witness :
    verifyPayment cfgD 1000 [] (proofD sigZ "10000" devnetMint 699) =
      some (.expired 301) ∧
    verifyPayment cfgD 1000 [] (proofD sigZ "10000" devnetMint 701) = none := by
  constructor
  · exact (c5_freshness_window cfgD 1000 [] _ rfl rfl rfl rfl rfl).1 (by decide)
  · exact ((c5_freshness_window cfgD 1000 [] _ rfl rfl rfl rfl rfl).2
      (by decide) (by decide)).mpr (by decide)

set_option maxRecDepth 40000 in
/-- C5 counterexample: a proof whose timestamp lies 1000000 seconds in the
future — far beyond any small clock-skew tolerance — passes the whole
pipeline; the code never rejects future-dated proofs, contradicting the
claimed "or the timestamp is more than a small future-clock-skew tolerance
ahead of now" clause of the rejection condition. -/
theorem c5_future_timestamp_counterexample :
    verifyPayment cfgD 1000 [] (proofD sigZ "10000" devnetMint 1001000) = none ∧
    (proofD sigZ "10000" devnetMint 1001000).payload.timestamp - 1000 = 1000000 := by
  refine ⟨by decide, by decide⟩

/-- C3: the replay store is mutated only on acceptance — every rejected run
leaves the store exactly as it was and does not invoke the wrapped handler —
and the handler is invoked exactly when every verification check passes and
the committing insert succeeds (the payment key is not already present). -/
theorem c3_store_mutated_only_on_accept (cfg : ServerConfig) (now : Int)
    (used : List String) (pp : PaymentPayload) :
    (∀ r, (requirePayment cfg now used pp).1 = .rejected r →
      (requirePayment cfg now used pp).2.1 = used ∧
      (requirePayment cfg now used pp).2.2 = false) ∧
    ((requirePayment cfg now used pp).2.2 = true ↔
      verifyPayment cfg now used pp = none ∧ paymentId pp.payload ∉ used) := by
  constructor
  · intro r hr
    rcases h : verifyPayment cfg now used pp with _ | r2
    · simp [requirePayment, h] at hr
    · simp [requirePayment, h]
  · constructor
    · intro ht
      rcases h : verifyPayment cfg now used pp with _ | r2
      · refine ⟨rfl, ?_⟩
        have h2 := h
        simp only [verifyPayment] at h2
        split_ifs at h2
        assumption
      · simp [requirePayment, h] at ht
    · rintro ⟨h, -⟩
      simp [requirePayment, h]

set_option maxRecDepth 40000 in
/-- C3 witness: a rejected run (wrong amount) leaves the store empty and
does not invoke the handler; an accepted run invokes it. -/
theorem c3_store_mutated_only_on_accept_witness :
    (requirePayment cfgD 2000 [] (proofD sigZ "9999" devnetMint 1900)).2.1 = [] ∧
    (requirePayment cfgD 2000 [] (proofD sigZ "9999" devnetMint 1900)).2.2 = false ∧
    (requirePayment cfgD 2000 [] (proofD sigZ "10000" devnetMint 1900)).2.2 = true := by
  refine ⟨?_, ?_, ?_⟩
  · exact ((c3_store_mutated_only_on_accept cfgD 2000 [] _).1
      (.amountMismatch "10000" "9999") (by decide)).1
  · exact ((c3_store_mutated_only_on_accept cfgD 2000 [] _).1
      (.amountMismatch "10000" "9999") (by decide)).2
  · exact (c3_store_mutated_only_on_accept cfgD 2000 [] _).2.mpr
      ⟨by decide, by decide⟩

set_option maxRecDepth 40000 in
/-- C1: evaluation of the code at the failing input. The duplicate check of
the mock server keys its used-set on the string `signature ++ "-" ++
timestamp`, so after a proof carrying signature `sigZ` and timestamp 900 is
accepted and recorded, a second proof carrying the same signature with
timestamp 901 is also accepted — replay admission keyed by signature alone
does not hold. -/
theorem c1_same_signature_fresh_timestamp_admitted :
    (requirePayment cfgD 1000 [] (proofD sigZ "10000" devnetMint 900)).1 = .granted ∧
    (requirePayment cfgD 1000
        (requirePayment cfgD 1000 [] (proofD sigZ "10000" devnetMint 900)).2.1
        (proofD sigZ "10000" devnetMint 901)).1 = .granted ∧
    (proofD sigZ "10000" devnetMint 901).payload.signature =
      (proofD sigZ "10000" devnetMint 900).payload.signature ∧
    (proofD sigZ "10000" devnetMint 901).payload.timestamp ≠
      (proofD sigZ "10000" devnetMint 900).payload.timestamp := by
  refine ⟨by decide, by decide, by decide, by decide⟩

/-! ## Theorems about the client pipeline and the unit conversion -/

/-- C7: whenever the caller's `maxWillingToPay` is strictly below the chosen
requirement's `maxAmountRequired`, the builder fails with the
exceeds-limit error before any signing or ledger activity (both collaborator
counts are zero), and the client sends no second request; whenever
`maxWillingToPay` is at least the required amount, the guardrail never
fails. -/
theorem c7_guardrail_before_signing (req : PaymentRequirement) (maxW : Nat)
    (wallet : String) (sign : String → String)
    (submit : String → String → Nat → String → String) (format : ProtocolFormat)
    (now : Int) (required : Nat)
    (hreq : decToNat? req.maxAmountRequired = some required) :
    (maxW < required →
      buildPayment req maxW wallet sign submit format now =
        (.error (.exceedsLimit required maxW), ⟨0, 0, 0⟩)) ∧
    (required ≤ maxW →
      ∀ a b ev, buildPayment req maxW wallet sign submit format now ≠
        (.error (.exceedsLimit a b), ev)) ∧
    (∀ (transport : Option PaymentPayload → HttpResponse) (ch : PaymentChallenge),
      (transport none).status = 402 → (transport none).challenge = some ch →
      ch.accepts.head? = some req → maxW < required →
      clientRun transport maxW wallet sign submit format now =
        (.error (.exceedsLimit required maxW), ⟨0, 0, 0⟩, 1,
          [.requested, .challengeReceived, .failed])) := by
  refine ⟨?_, ?_, ?_⟩
  · intro h
    simp [buildPayment, hreq, h]
  · intro h a b ev
    simp only [buildPayment, hreq]
    rw [if_neg (by omega)]
    cases format <;> simp
  · intro transport ch h402 hch hhead hlt
    simp [clientRun, h402, hch, hhead, buildPayment, hreq, hlt]

set_option maxRecDepth 10000 in
/-- C7 witness: a client willing to pay 5000 atomic units against a
10000-unit requirement fails with the exceeds-limit error, with zero signer
calls, zero ledger calls and zero retried requests. -/
theorem c7_guardrail_before_signing_witness :
    buildPayment reqD 5000 "9rKnvE7PVbpq4Ws" signD ledgerD .official 1000 =
      (.error (.exceedsLimit 10000 5000), ⟨0, 0, 0⟩) ∧
    clientRun transport402 5000 "9rKnvE7PVbpq4Ws" signD ledgerD .official 1000 =
      (.error (.exceedsLimit 10000 5000), ⟨0, 0, 0⟩, 1,
        [.requested, .challengeReceived, .failed]) := by
  have h := c7_guardrail_before_signing reqD 5000 "9rKnvE7PVbpq4Ws" signD ledgerD
    .official 1000 10000 (by decide)
  exact ⟨h.1 (by decide),
    h.2.2 transport402 chalD (by decide) (by decide) (by decide) (by decide)⟩

/-- C8: when the initial response is not a 402 the client goes directly from
`requested` to `completed` with zero PaymentBuilder invocations; and in
every execution a single request yields at most one builder invocation and
at most one `paying` step. -/
theorem c8_no_payment_without_402 (transport : Option PaymentPayload → HttpResponse)
    (maxW : Nat) (wallet : String) (sign : String → String)
    (submit : String → String → Nat → String → String) (format : ProtocolFormat)
    (now : Int) :
    ((transport none).status ≠ 402 →
      clientRun transport maxW wallet sign submit format now =
        (.ok (transport none), ⟨0, 0, 0⟩, 0, [.requested, .completed])) ∧
    (clientRun transport maxW wallet sign submit format now).2.2.1 ≤ 1 ∧
    ((clientRun transport maxW wallet sign submit format now).2.2.2.count .paying ≤ 1) := by
  refine ⟨?_, ?_, ?_⟩
  · intro h
    simp [clientRun, h]
  · unfold clientRun
    dsimp only
    split
    · simp
    · split
      · simp
      · split
        · simp
        · split
          · simp
          · simp
  · unfold clientRun
    dsimp only
    split
    · simp [List.count_cons, List.count_nil]
    · split
      · simp [List.count_cons, List.count_nil]
      · split
        · simp [List.count_cons, List.count_nil]
        · split
          · simp [List.count_cons, List.count_nil]
          · simp [List.count_cons, List.count_nil]

/-- C8 witness: against a free endpoint (status 200) the client completes
immediately, never invoking the PaymentBuilder. -/
theorem c8_no_payment_without_402_witness :
    clientRun transportFree 1000000 "9rKnvE7PVbpq4Ws" signD ledgerD .official 500 =
      (.ok { status := 200, challenge := none }, ⟨0, 0, 0⟩, 0,
        [.requested, .completed]) :=
  (c8_no_payment_without_402 transportFree 1000000 "9rKnvE7PVbpq4Ws" signD ledgerD
    .official 500).1 (by decide)

set_option maxRecDepth 10000 in
/-- C10: evaluation of the code at the failing input.  The documented
conversion is exact (`0.000123` display units are exactly 123 atomic
units), but the code's `BigInt(parseFloat("0.000123") * 1e6)` computes the
double `123.00000000000001`, which is not an integer, so `BigInt` throws a
`RangeError` instead of producing 123; the conversion is exact for the
documentation's round examples such as `0.01`. -/
theorem c10_conversion_inexact_at_six_decimals :
    exactAtomicUnits "0.000123" = some 123 ∧
    toAtomicUnits "0.000123" = none ∧
    toAtomicUnits "0.01" = some 10000 := by
  refine ⟨by decide, by decide, by decide⟩

/-! ## Round-trip lemmas (C6) -/

-- C6 lemma development

/-! ## Round-trip lemmas -/

theorem String.mk_data_eq (s : String) : String.mk s.data = s := by cases s; rfl

theorem nonDigitStart_nil : NonDigitStart [] := by
  intro c h
  simp at h

theorem nonDigitStart_cons {c : Char} (h : c.isDigit = false) (l : List Char) :
    NonDigitStart (c :: l) := by
  intro d hd
  simp at hd
  exact hd ▸ h

theorem jsonSafeChar_spec {c : Char} (h : jsonSafeChar c = true) :
    c ≠ '"' ∧ c ≠ '\\' ∧ c.toNat < 128 := by
  simp only [jsonSafeChar, Bool.and_eq_true, decide_eq_true_eq, ne_eq] at h
  exact ⟨h.1.2, h.2, h.1.1.2⟩

theorem escapeChar_safe {c : Char} (h : jsonSafeChar c = true) : escapeChar c = [c] := by
  obtain ⟨h1, h2, -⟩ := jsonSafeChar_spec h
  simp [escapeChar, h1, h2]

theorem flatten_escape_safe (l : List Char) (h : ∀ c ∈ l, jsonSafeChar c = true) :
    (l.map escapeChar).flatten = l := by
  induction l with
  | nil => rfl
  | cons c l2 ih =>
    simp only [List.map_cons, List.flatten_cons, escapeChar_safe (h c (by simp))]
    rw [ih (fun x hx => h x (by simp [hx]))]
    simp

theorem stringifyString_safe {s : String} (h : jsonSafeString s = true) :
    stringifyString s = '"' :: s.data ++ ['"'] := by
  simp only [jsonSafeString, List.all_eq_true] at h
  simp only [stringifyString, flatten_escape_safe s.data h]

theorem parseStringBody_safe (l : List Char) (h : ∀ c ∈ l, jsonSafeChar c = true)
    (rest : List Char) :
    parseStringBody (l ++ '"' :: rest) = some (l, rest) := by
  induction l with
  | nil =>
    rw [List.nil_append]
    conv_lhs => rw [parseStringBody.eq_def]
    simp
  | cons c l2 ih =>
    obtain ⟨h1, h2, -⟩ := jsonSafeChar_spec (h c (by simp))
    rw [List.cons_append]
    conv_lhs => rw [parseStringBody.eq_def]
    simp [h1, h2, ih (fun x hx => h x (by simp [hx]))]

theorem parseKeyString_safe (s : String) (h : jsonSafeString s = true) (rest : List Char) :
    parseKeyString (stringifyString s ++ rest) = some (s, rest) := by
  have hall : ∀ c ∈ s.data, jsonSafeChar c = true := by
    simpa [jsonSafeString, List.all_eq_true] using h
  rw [stringifyString_safe h]
  simp [parseKeyString, parseStringBody_safe s.data hall rest, String.mk_data_eq]

theorem digitChar_isDigit {d : Nat} (h : d < 10) : (digitChar d).isDigit = true := by
  interval_cases d <;> decide

theorem digitChar_toNat {d : Nat} (h : d < 10) : (digitChar d).toNat = 48 + d := by
  interval_cases d <;> decide

theorem natDigitsAux_digits (fuel n : Nat) :
    ∀ c ∈ natDigitsAux fuel n, ∃ d, d < 10 ∧ c = digitChar d := by
  induction fuel generalizing n with
  | zero =>
    intro c hc
    simp [natDigitsAux] at hc
  | succ fuel ih =>
    intro c hc
    by_cases h0 : n = 0
    · simp [natDigitsAux, h0] at hc
    · simp only [natDigitsAux, h0, if_false, ite_false, List.mem_append, List.mem_singleton] at hc
      rcases hc with hc | hc
      · exact ih (n / 10) c hc
      · exact ⟨n % 10, Nat.mod_lt n (by omega), hc⟩

theorem natDigits_digits (n : Nat) : ∀ c ∈ natDigits n, ∃ d, d < 10 ∧ c = digitChar d := by
  intro c hc
  by_cases h0 : n = 0
  · simp [natDigits, h0] at hc
    exact ⟨0, by omega, by simp [hc]; rfl⟩
  · simp only [natDigits, h0, if_false, ite_false] at hc
    exact natDigitsAux_digits n n c hc

theorem natDigits_all_isDigit (n : Nat) : ∀ c ∈ natDigits n, c.isDigit = true := by
  intro c hc
  obtain ⟨d, hd, rfl⟩ := natDigits_digits n c hc
  exact digitChar_isDigit hd

theorem natDigitsAux_ne_nil {fuel n : Nat} (h0 : n ≠ 0) (hf : fuel ≠ 0) :
    natDigitsAux fuel n ≠ [] := by
  cases fuel with
  | zero => exact absurd rfl hf
  | succ fuel => simp [natDigitsAux, h0]

theorem natDigits_ne_nil (n : Nat) : natDigits n ≠ [] := by
  by_cases h0 : n = 0
  · simp [natDigits, h0]
  · simp only [natDigits, h0, if_false, ite_false]
    exact natDigitsAux_ne_nil h0 h0

theorem foldl_digitsToNat_append (a : Nat) (xs : List Char) (d : Char) :
    List.foldl (fun a c => 10 * a + (c.toNat - 48)) a (xs ++ [d]) =
      10 * List.foldl (fun a c => 10 * a + (c.toNat - 48)) a xs + (d.toNat - 48) := by
  rw [List.foldl_append]
  rfl

theorem digitsToNat_natDigitsAux (fuel : Nat) :
    ∀ n a, n ≤ fuel →
      List.foldl (fun a c => 10 * a + (c.toNat - 48)) a (natDigitsAux fuel n) =
        a * 10 ^ (natDigitsAux fuel n).length + n := by
  induction fuel with
  | zero =>
    intro n a hn
    interval_cases n
    simp [natDigitsAux]
  | succ fuel ih =>
    intro n a hn
    by_cases h0 : n = 0
    · simp [natDigitsAux, h0]
    · simp only [natDigitsAux, h0, if_false, ite_false]
      rw [foldl_digitsToNat_append]
      rw [ih (n / 10) a (by omega)]
      rw [digitChar_toNat (Nat.mod_lt n (by omega))]
      simp only [List.length_append, List.length_singleton]
      rw [pow_succ]
      have hmod : 48 + n % 10 - 48 = n % 10 := by omega
      rw [hmod]
      have := Nat.div_add_mod n 10
      ring_nf
      omega

theorem digitsToNat_natDigits (n : Nat) : digitsToNat (natDigits n) = n := by
  by_cases h0 : n = 0
  · simp [natDigits, h0, digitsToNat]
  · simp only [natDigits, h0, if_false, ite_false, digitsToNat]
    rw [digitsToNat_natDigitsAux n n 0 le_rfl]
    simp

theorem takeWhile_all_append {p : Char → Bool} {l rest : List Char}
    (h : ∀ c ∈ l, p c = true) (hr : ∀ c, rest.head? = some c → p c = false) :
    (l ++ rest).takeWhile p = l ∧ (l ++ rest).dropWhile p = rest := by
  induction l with
  | nil =>
    cases rest with
    | nil => simp
    | cons r rs =>
      have := hr r (by simp)
      simp [List.takeWhile, List.dropWhile, this]
  | cons c l2 ih =>
    have hc := h c (by simp)
    obtain ⟨ht, hd⟩ := ih (fun x hx => h x (by simp [hx]))
    simp [List.takeWhile, List.dropWhile, hc, ht, hd]

theorem parseNatPart_natDigits (n : Nat) (rest : List Char) (hr : NonDigitStart rest) :
    parseNatPart (natDigits n ++ rest) = some (n, rest) := by
  obtain ⟨ht, hd⟩ := takeWhile_all_append (natDigits_all_isDigit n) hr
  simp [parseNatPart, ht, hd, natDigits_ne_nil n, digitsToNat_natDigits n]

theorem isDigit_toNat_bounds {c : Char} (h : c.isDigit = true) :
    48 ≤ c.toNat ∧ c.toNat ≤ 57 := by
  simp [Char.isDigit, decide_eq_true_eq] at h
  constructor <;> [exact h.1; exact h.2]

theorem isDigit_ne_chars {c : Char} (h : c.isDigit = true) :
    c ≠ '-' ∧ c ≠ '{' ∧ c ≠ '[' ∧ c ≠ '"' ∧ c ≠ 'n' ∧ c ≠ 't' ∧ c ≠ 'f' := by
  obtain ⟨h1, h2⟩ := isDigit_toNat_bounds h
  refine ⟨?_, ?_, ?_, ?_, ?_, ?_, ?_⟩ <;>
    (intro heq; subst heq; revert h1 h2; decide)

theorem parseIntPart_intDigits (n : Int) (rest : List Char) (hr : NonDigitStart rest) :
    parseIntPart (intDigits n ++ rest) = some (n, rest) := by
  by_cases hneg : n < 0
  · simp only [intDigits, hneg, if_true, ite_true, List.cons_append]
    conv_lhs => rw [parseIntPart.eq_def]
    simp [parseNatPart_natDigits n.natAbs rest hr]
    rw [abs_of_neg hneg, neg_neg]
  · simp only [intDigits, hneg, if_false, ite_false]
    rcases hds : natDigits n.toNat with _ | ⟨d, ds⟩
    · exact absurd hds (natDigits_ne_nil _)
    · have hdig : d.isDigit = true := by
        apply natDigits_all_isDigit n.toNat
        rw [hds]
        simp
      obtain ⟨hm, -⟩ := isDigit_ne_chars hdig
      rw [List.cons_append]
      conv_lhs => rw [parseIntPart.eq_def]
      simp only [hm, if_false, ite_false]
      rw [← List.cons_append, ← hds]
      rw [parseNatPart_natDigits n.toNat rest hr]
      simp
      omega

theorem chunkP_mono {b b2 : Nat} {cs : List Char} {v : Json}
    (h : ChunkP b cs v) (hb : b ≤ b2) : ChunkP b2 cs v :=
  fun fuel hf => h fuel (le_trans hb hf)

theorem chunkP_str (s : String) (hs : jsonSafeString s = true) :
    ChunkP 1 (stringifyString s) (.str s) := by
  intro fuel hf rest hrest
  obtain ⟨f2, rfl⟩ : ∃ f2, fuel = f2 + 1 := ⟨fuel - 1, by omega⟩
  have hall : ∀ c ∈ s.data, jsonSafeChar c = true := by
    simpa [jsonSafeString, List.all_eq_true] using hs
  rw [stringifyString_safe hs]
  rw [show ('"' :: s.data ++ ['"']) ++ rest = '"' :: (s.data ++ '"' :: rest) by simp]
  conv_lhs => rw [parseValue.eq_def]
  simp [parseStringBody_safe s.data hall rest, String.mk_data_eq]

theorem intDigits_head (n : Int) :
    ∃ c cs, intDigits n = c :: cs ∧ (c = '-' ∨ c.isDigit = true) := by
  by_cases hneg : n < 0
  · exact ⟨'-', natDigits n.natAbs, by simp [intDigits, hneg], Or.inl rfl⟩
  · rcases hds : natDigits n.toNat with _ | ⟨d, ds⟩
    · exact absurd hds (natDigits_ne_nil _)
    · refine ⟨d, ds, by simp [intDigits, hneg, hds], Or.inr ?_⟩
      apply natDigits_all_isDigit n.toNat
      rw [hds]
      simp

theorem numStart_ne {c : Char} (h : c = '-' ∨ c.isDigit = true) :
    c ≠ '{' ∧ c ≠ '[' ∧ c ≠ '"' ∧ c ≠ 'n' ∧ c ≠ 't' ∧ c ≠ 'f' := by
  rcases h with rfl | h
  · exact ⟨by decide, by decide, by decide, by decide, by decide, by decide⟩
  · obtain ⟨-, h2, h3, h4, h5, h6, h7⟩ := isDigit_ne_chars h
    exact ⟨h2, h3, h4, h5, h6, h7⟩

theorem chunkP_num (n : Int) : ChunkP 1 (intDigits n) (.num n) := by
  intro fuel hf rest hrest
  obtain ⟨f2, rfl⟩ : ∃ f2, fuel = f2 + 1 := ⟨fuel - 1, by omega⟩
  obtain ⟨c, cs, hcs, hc⟩ := intDigits_head n
  obtain ⟨h1, h2, h3, h4, h5, h6⟩ := numStart_ne hc
  rw [hcs, List.cons_append]
  conv_lhs => rw [parseValue.eq_def]
  simp only [h1, h2, h3, h4, h5, h6, if_false, ite_false, if_neg]
  rw [← List.cons_append, ← hcs, parseIntPart_intDigits n rest hrest]
  rfl

theorem chunkP_null : ChunkP 1 (['n', 'u', 'l', 'l'] : List Char) .null := by
  intro fuel hf rest hrest
  obtain ⟨f2, rfl⟩ : ∃ f2, fuel = f2 + 1 := ⟨fuel - 1, by omega⟩
  conv_lhs => rw [parseValue.eq_def]
  simp [dropLit]

theorem moreFieldsChars_head (items : List (String × List Char × Json))
    (rest : List Char) : NonDigitStart (moreFieldsChars items ++ rest) := by
  cases items with
  | nil => exact nonDigitStart_cons (by decide) _
  | cons it its =>
    simp only [moreFieldsChars, List.flatMap_cons, List.cons_append, List.append_assoc]
    exact nonDigitStart_cons (by decide) _

theorem sepByComma_fields_shape (it : String × List Char × Json)
    (its : List (String × List Char × Json)) (rest : List Char) :
    (sepByComma ((it :: its).map fieldChunk) ++ ['}']) ++ rest =
      fieldChunk it ++ (moreFieldsChars its ++ rest) := by
  induction its generalizing it with
  | nil => simp [sepByComma, moreFieldsChars]
  | cons it2 its2 ih =>
    have h2 := ih it2
    simp only [List.map_cons, moreFieldsChars, List.flatMap_cons] at h2 ⊢
    rw [show sepByComma (fieldChunk it :: fieldChunk it2 :: List.map fieldChunk its2) =
      fieldChunk it ++ ',' :: sepByComma (fieldChunk it2 :: List.map fieldChunk its2) from rfl]
    simp only [List.append_assoc, List.cons_append] at h2 ⊢
    rw [← h2]

theorem parseFieldsMore_chunks (b : Nat) (items : List (String × List Char × Json)) :
    ∀ (fuel : Nat),
      (∀ it ∈ items, jsonSafeString it.1 = true) →
      (∀ it ∈ items, ChunkP b it.2.1 it.2.2) →
      items.length + b + 1 ≤ fuel →
      ∀ rest, parseFieldsMore fuel (moreFieldsChars items ++ rest) =
        some (items.map (fun it => (it.1, it.2.2)), rest) := by
  induction items with
  | nil =>
    intro fuel hs hc hf rest
    obtain ⟨f2, rfl⟩ : ∃ f2, fuel = f2 + 1 := ⟨fuel - 1, by omega⟩
    simp only [moreFieldsChars, List.flatMap_nil, List.nil_append, List.cons_append]
    conv_lhs => rw [parseFieldsMore.eq_def]
    simp
  | cons it its ih =>
    intro fuel hs hc hf rest
    obtain ⟨f2, rfl⟩ : ∃ f2, fuel = f2 + 1 := ⟨fuel - 1, by omega⟩
    have hkey := parseKeyString_safe it.1 (hs it (by simp))
      (':' :: (it.2.1 ++ (moreFieldsChars its ++ rest)))
    have hval := hc it (by simp) f2 (by omega) (moreFieldsChars its ++ rest)
      (moreFieldsChars_head its rest)
    have hih := ih f2 (fun x hx => hs x (by simp [hx])) (fun x hx => hc x (by simp [hx]))
      (by simp at hf ⊢; omega) rest
    simp only [moreFieldsChars, List.flatMap_cons, List.cons_append, List.append_assoc,
      List.nil_append, fieldChunk, jsonField] at hkey hval hih ⊢
    conv_lhs => rw [parseFieldsMore.eq_def]
    simp only [show ((',' : Char) = '}') = False from by decide, if_false, ite_false,
      reduceIte]
    rw [hkey]
    simp only [Option.bind_eq_bind, Option.some_bind]
    rw [show expectColon (':' :: (it.2.1 ++ ((its.flatMap fun x => ',' :: (stringifyString x.1 ++ ':' :: x.2.1)) ++ '}' :: rest))) =
      some (it.2.1 ++ ((its.flatMap fun x => ',' :: (stringifyString x.1 ++ ':' :: x.2.1)) ++ '}' :: rest)) from by simp [expectColon]]
    simp only [Option.some_bind]
    rw [hval]
    simp only [Option.some_bind]
    rw [hih]
    simp

theorem chunkP_obj (b : Nat) (items : List (String × List Char × Json))
    (hs : ∀ it ∈ items, jsonSafeString it.1 = true)
    (hc : ∀ it ∈ items, ChunkP b it.2.1 it.2.2) :
    ChunkP (items.length + b + 2) (jsonObjChars (items.map fieldChunk))
      (.obj (items.map (fun it => (it.1, it.2.2)))) := by
  intro fuel hf rest hrest
  obtain ⟨f2, rfl⟩ : ∃ f2, fuel = f2 + 1 := ⟨fuel - 1, by omega⟩
  cases items with
  | nil =>
    simp only [jsonObjChars, List.map_nil, sepByComma, List.nil_append, List.cons_append]
    conv_lhs => rw [parseValue.eq_def]
    simp only [reduceIte]
    obtain ⟨f3, rfl⟩ : ∃ f3, f2 = f3 + 1 := ⟨f2 - 1, by omega⟩
    conv_lhs => rw [parseFields.eq_def]
    simp
  | cons it its =>
    obtain ⟨f3, rfl⟩ : ∃ f3, f2 = f3 + 1 := ⟨f2 - 1, by simp at hf; omega⟩
    have hkey := parseKeyString_safe it.1 (hs it (by simp))
      (':' :: (it.2.1 ++ (moreFieldsChars its ++ rest)))
    have hval := hc it (by simp) f3 (by simp at hf; omega)
      (moreFieldsChars its ++ rest) (moreFieldsChars_head its rest)
    have hmore := parseFieldsMore_chunks b its f3
      (fun x hx => hs x (by simp [hx])) (fun x hx => hc x (by simp [hx]))
      (by simp at hf; omega) rest
    have hshape := sepByComma_fields_shape it its rest
    -- the object chunk is '{' :: (sepByComma ... ++ ['}']) ++ rest
    simp only [jsonObjChars, List.cons_append, List.append_assoc] at hshape ⊢
    conv_lhs => rw [parseValue.eq_def]
    simp only [reduceIte]
    rw [show sepByComma (List.map fieldChunk (it :: its)) ++ ('}' :: ([] ++ rest)) =
      fieldChunk it ++ (moreFieldsChars its ++ rest) from by
        simpa using hshape]
    -- parseFields on a first field starting with '"'
    have hfirst : ∃ k0 ks, stringifyString it.1 = k0 :: ks ∧ k0 = '"' := by
      rw [stringifyString_safe (hs it (by simp))]
      exact ⟨'"', it.1.data ++ ['"'], rfl, rfl⟩
    obtain ⟨k0, ks, hks, rfl⟩ := hfirst
    simp only [fieldChunk, jsonField, hks, List.cons_append, List.append_assoc] at hkey ⊢
    conv_lhs => rw [parseFields.eq_def]
    simp only [show (('"' : Char) = '}') = False from by decide, if_false, ite_false, reduceIte]
    rw [hkey]
    simp only [Option.bind_eq_bind, Option.some_bind]
    rw [show expectColon (':' :: (it.2.1 ++ (moreFieldsChars its ++ rest))) =
      some (it.2.1 ++ (moreFieldsChars its ++ rest)) from by simp [expectColon]]
    simp only [Option.some_bind]
    rw [hval]
    simp only [Option.some_bind]
    rw [hmore]
    simp

theorem moreElemsChars_head (items : List (List Char × Json)) (rest : List Char) :
    NonDigitStart (moreElemsChars items ++ rest) := by
  cases items with
  | nil => exact nonDigitStart_cons (by decide) _
  | cons it its =>
    simp only [moreElemsChars, List.flatMap_cons, List.cons_append, List.append_assoc]
    exact nonDigitStart_cons (by decide) _

theorem sepByComma_elems_shape (it : List Char × Json)
    (its : List (List Char × Json)) (rest : List Char) :
    (sepByComma ((it :: its).map Prod.fst) ++ [']']) ++ rest =
      it.1 ++ (moreElemsChars its ++ rest) := by
  induction its generalizing it with
  | nil => simp [sepByComma, moreElemsChars]
  | cons it2 its2 ih =>
    have h2 := ih it2
    simp only [List.map_cons, moreElemsChars, List.flatMap_cons] at h2 ⊢
    rw [show sepByComma (it.1 :: it2.1 :: List.map Prod.fst its2) =
      it.1 ++ ',' :: sepByComma (it2.1 :: List.map Prod.fst its2) from rfl]
    simp only [List.append_assoc, List.cons_append] at h2 ⊢
    rw [← h2]

theorem parseElemsMore_chunks (b : Nat) (items : List (List Char × Json)) :
    ∀ (fuel : Nat),
      (∀ it ∈ items, ChunkP b it.1 it.2) →
      items.length + b + 1 ≤ fuel →
      ∀ rest, parseElemsMore fuel (moreElemsChars items ++ rest) =
        some (items.map Prod.snd, rest) := by
  induction items with
  | nil =>
    intro fuel hc hf rest
    obtain ⟨f2, rfl⟩ : ∃ f2, fuel = f2 + 1 := ⟨fuel - 1, by omega⟩
    simp only [moreElemsChars, List.flatMap_nil, List.nil_append, List.cons_append]
    conv_lhs => rw [parseElemsMore.eq_def]
    simp
  | cons it its ih =>
    intro fuel hc hf rest
    obtain ⟨f2, rfl⟩ : ∃ f2, fuel = f2 + 1 := ⟨fuel - 1, by omega⟩
    have hval := hc it (by simp) f2 (by omega) (moreElemsChars its ++ rest)
      (moreElemsChars_head its rest)
    have hih := ih f2 (fun x hx => hc x (by simp [hx])) (by simp at hf ⊢; omega) rest
    simp only [moreElemsChars, List.flatMap_cons, List.cons_append, List.append_assoc,
      List.nil_append] at hval hih ⊢
    conv_lhs => rw [parseElemsMore.eq_def]
    simp only [show ((',' : Char) = ']') = False from by decide, if_false, ite_false,
      reduceIte]
    rw [hval]
    simp only [Option.bind_eq_bind, Option.some_bind]
    rw [hih]
    simp

theorem chunkP_arr (b : Nat) (items : List (List Char × Json))
    (hc : ∀ it ∈ items, ChunkP b it.1 it.2)
    (hhd : ∀ it ∈ items, ∃ c cs, it.1 = c :: cs ∧ (c = ']') = False) :
    ChunkP (items.length + b + 2) (jsonArrChars (items.map Prod.fst))
      (.arr (items.map Prod.snd)) := by
  intro fuel hf rest hrest
  obtain ⟨f2, rfl⟩ : ∃ f2, fuel = f2 + 1 := ⟨fuel - 1, by omega⟩
  cases items with
  | nil =>
    simp only [jsonArrChars, List.map_nil, sepByComma, List.nil_append, List.cons_append]
    conv_lhs => rw [parseValue.eq_def]
    simp only [reduceIte]
    obtain ⟨f3, rfl⟩ : ∃ f3, f2 = f3 + 1 := ⟨f2 - 1, by omega⟩
    conv_lhs => rw [parseElems.eq_def]
    simp
  | cons it its =>
    obtain ⟨f3, rfl⟩ : ∃ f3, f2 = f3 + 1 := ⟨f2 - 1, by simp at hf; omega⟩
    have hval := hc it (by simp) f3 (by simp at hf; omega)
      (moreElemsChars its ++ rest) (moreElemsChars_head its rest)
    have hmore := parseElemsMore_chunks b its f3
      (fun x hx => hc x (by simp [hx])) (by simp at hf; omega) rest
    have hshape := sepByComma_elems_shape it its rest
    simp only [jsonArrChars, List.cons_append, List.append_assoc] at hshape ⊢
    conv_lhs => rw [parseValue.eq_def]
    simp only [reduceIte]
    rw [show sepByComma (List.map Prod.fst (it :: its)) ++ (']' :: ([] ++ rest)) =
      it.1 ++ (moreElemsChars its ++ rest) from by simpa using hshape]
    obtain ⟨e0, es, he, hne⟩ := hhd it (by simp)
    rw [he, List.cons_append]
    conv_lhs => rw [parseElems.eq_def]
    simp only [hne, if_false, ite_false, reduceIte]
    rw [← List.cons_append, ← he, hval]
    simp only [Option.bind_eq_bind, Option.some_bind]
    rw [hmore]
    simp

theorem proofEncodable_spec {p : PaymentPayload} (h : proofEncodable p = true) :
    jsonSafeString p.scheme = true ∧ jsonSafeString p.network = true ∧
    jsonSafeString p.payload.signature = true ∧ jsonSafeString p.payload.fromAddr = true ∧
    jsonSafeString p.payload.amount = true ∧ jsonSafeString p.payload.mint = true := by
  simp only [proofEncodable, Bool.and_eq_true] at h
  exact ⟨h.1.1.1.1.1, h.1.1.1.1.2, h.1.1.1.2, h.1.1.2, h.1.2, h.2⟩

theorem requirementEncodable_spec {r : PaymentRequirement}
    (h : requirementEncodable r = true) :
    jsonSafeString r.scheme = true ∧ jsonSafeString r.network = true ∧
    jsonSafeString r.maxAmountRequired = true ∧ jsonSafeString r.resource = true ∧
    jsonSafeString r.payTo = true ∧ jsonSafeString r.asset = true := by
  simp only [requirementEncodable, Bool.and_eq_true] at h
  exact ⟨h.1.1.1.1.1, h.1.1.1.1.2, h.1.1.1.2, h.1.1.2, h.1.2, h.2⟩

theorem chunkP_payload (q : SolanaPaymentPayload)
    (h1 : jsonSafeString q.signature = true) (h2 : jsonSafeString q.fromAddr = true)
    (h3 : jsonSafeString q.amount = true) (h4 : jsonSafeString q.mint = true) :
    ChunkP 8
      (jsonObjChars
        [jsonField "signature" (stringifyString q.signature),
         jsonField "from" (stringifyString q.fromAddr),
         jsonField "amount" (stringifyString q.amount),
         jsonField "mint" (stringifyString q.mint),
         jsonField "timestamp" (intDigits q.timestamp)])
      (payloadJson q) := by
  have h := chunkP_obj 1
    [("signature", stringifyString q.signature, Json.str q.signature),
     ("from", stringifyString q.fromAddr, Json.str q.fromAddr),
     ("amount", stringifyString q.amount, Json.str q.amount),
     ("mint", stringifyString q.mint, Json.str q.mint),
     ("timestamp", intDigits q.timestamp, Json.num q.timestamp)]
    (by
      intro it hit
      simp only [List.mem_cons, List.mem_singleton] at hit
      rcases hit with rfl | rfl | rfl | rfl | rfl | h
      · exact (by decide : jsonSafeString "signature" = true)
      · exact (by decide : jsonSafeString "from" = true)
      · exact (by decide : jsonSafeString "amount" = true)
      · exact (by decide : jsonSafeString "mint" = true)
      · exact (by decide : jsonSafeString "timestamp" = true)
      · simp at h)
    (by
      intro it hit
      simp only [List.mem_cons, List.mem_singleton] at hit
      rcases hit with rfl | rfl | rfl | rfl | rfl | h
      · exact chunkP_str _ h1
      · exact chunkP_str _ h2
      · exact chunkP_str _ h3
      · exact chunkP_str _ h4
      · exact chunkP_num _
      · simp at h)
  simpa [fieldChunk, payloadJson] using h

theorem chunkP_proof (p : PaymentPayload) (hp : proofEncodable p = true) :
    ChunkP 14 (proofJsonChars p) (proofJson p) := by
  obtain ⟨h1, h2, h3, h4, h5, h6⟩ := proofEncodable_spec hp
  have hpay := chunkP_payload p.payload h3 h4 h5 h6
  have h := chunkP_obj 8
    [("x402Version", intDigits (p.x402Version : Int), Json.num (p.x402Version : Int)),
     ("scheme", stringifyString p.scheme, Json.str p.scheme),
     ("network", stringifyString p.network, Json.str p.network),
     ("payload",
       jsonObjChars
        [jsonField "signature" (stringifyString p.payload.signature),
         jsonField "from" (stringifyString p.payload.fromAddr),
         jsonField "amount" (stringifyString p.payload.amount),
         jsonField "mint" (stringifyString p.payload.mint),
         jsonField "timestamp" (intDigits p.payload.timestamp)],
       payloadJson p.payload)]
    (by
      intro it hit
      simp only [List.mem_cons, List.mem_singleton] at hit
      rcases hit with rfl | rfl | rfl | rfl | h
      · exact (by decide : jsonSafeString "x402Version" = true)
      · exact (by decide : jsonSafeString "scheme" = true)
      · exact (by decide : jsonSafeString "network" = true)
      · exact (by decide : jsonSafeString "payload" = true)
      · simp at h)
    (by
      intro it hit
      simp only [List.mem_cons, List.mem_singleton] at hit
      rcases hit with rfl | rfl | rfl | rfl | h
      · show ChunkP 8 (intDigits (p.x402Version : Int)) (Json.num (p.x402Version : Int))
        exact chunkP_mono (chunkP_num _) (by norm_num)
      · show ChunkP 8 (stringifyString p.scheme) (Json.str p.scheme)
        exact chunkP_mono (chunkP_str _ h1) (by norm_num)
      · show ChunkP 8 (stringifyString p.network) (Json.str p.network)
        exact chunkP_mono (chunkP_str _ h2) (by norm_num)
      · exact hpay
      · simp at h)
  simpa [fieldChunk, proofJson, proofJsonChars] using h

theorem chunkP_requirement (r : PaymentRequirement) (hr : requirementEncodable r = true) :
    ChunkP 9 (requirementJsonChars r) (requirementJson r) := by
  obtain ⟨h1, h2, h3, h4, h5, h6⟩ := requirementEncodable_spec hr
  have h := chunkP_obj 1
    [("scheme", stringifyString r.scheme, Json.str r.scheme),
     ("network", stringifyString r.network, Json.str r.network),
     ("maxAmountRequired", stringifyString r.maxAmountRequired, Json.str r.maxAmountRequired),
     ("resource", stringifyString r.resource, Json.str r.resource),
     ("payTo", stringifyString r.payTo, Json.str r.payTo),
     ("asset", stringifyString r.asset, Json.str r.asset)]
    (by
      intro it hit
      simp only [List.mem_cons, List.mem_singleton] at hit
      rcases hit with rfl | rfl | rfl | rfl | rfl | rfl | h
      · exact (by decide : jsonSafeString "scheme" = true)
      · exact (by decide : jsonSafeString "network" = true)
      · exact (by decide : jsonSafeString "maxAmountRequired" = true)
      · exact (by decide : jsonSafeString "resource" = true)
      · exact (by decide : jsonSafeString "payTo" = true)
      · exact (by decide : jsonSafeString "asset" = true)
      · simp at h)
    (by
      intro it hit
      simp only [List.mem_cons, List.mem_singleton] at hit
      rcases hit with rfl | rfl | rfl | rfl | rfl | rfl | h
      · exact chunkP_str _ h1
      · exact chunkP_str _ h2
      · exact chunkP_str _ h3
      · exact chunkP_str _ h4
      · exact chunkP_str _ h5
      · exact chunkP_str _ h6
      · simp at h)
  simpa [fieldChunk, requirementJson, requirementJsonChars] using h

theorem challengeEncodable_spec {c : PaymentChallenge} (h : challengeEncodable c = true) :
    c.accepts ≠ [] ∧ (∀ r ∈ c.accepts, requirementEncodable r = true) ∧
    (∀ e, c.error = some e → jsonSafeString e = true) := by
  simp only [challengeEncodable, Bool.and_eq_true, decide_eq_true_eq,
    List.all_eq_true] at h
  refine ⟨h.1.1, h.1.2, ?_⟩
  intro e he
  rcases hc : c.error with _ | e2
  · simp [hc] at he
  · rw [hc] at he h
    cases he
    exact h.2

theorem chunkP_challenge (c : PaymentChallenge) (hc : challengeEncodable c = true) :
    ChunkP (c.accepts.length + 16) (challengeJsonChars c) (challengeJson c) := by
  obtain ⟨-, hreqs, herrsafe⟩ := challengeEncodable_spec hc
  have harr := chunkP_arr 9
    (c.accepts.map (fun r => (requirementJsonChars r, requirementJson r)))
    (by
      intro it hit
      simp only [List.mem_map] at hit
      obtain ⟨r, hr, rfl⟩ := hit
      exact chunkP_requirement r (hreqs r hr))
    (by
      intro it hit
      simp only [List.mem_map] at hit
      obtain ⟨r, hr, rfl⟩ := hit
      exact ⟨'{', _, rfl, by decide⟩)
  simp only [List.map_map, List.length_map, Function.comp] at harr
  rcases herr : c.error with _ | e
  · have h := chunkP_obj (c.accepts.length + 11)
      [("x402Version", intDigits (c.x402Version : Int), Json.num (c.x402Version : Int)),
       ("accepts", jsonArrChars (c.accepts.map (fun r => requirementJsonChars r)),
         Json.arr (c.accepts.map (fun r => requirementJson r))),
       ("error", (['n', 'u', 'l', 'l'] : List Char), Json.null)]
      (by
        intro it hit
        simp only [List.mem_cons, List.mem_singleton] at hit
        rcases hit with rfl | rfl | rfl | h
        · exact (by decide : jsonSafeString "x402Version" = true)
        · exact (by decide : jsonSafeString "accepts" = true)
        · exact (by decide : jsonSafeString "error" = true)
        · simp at h)
      (by
        intro it hit
        simp only [List.mem_cons, List.mem_singleton] at hit
        rcases hit with rfl | rfl | rfl | h
        · show ChunkP (c.accepts.length + 11) (intDigits (c.x402Version : Int))
            (Json.num (c.x402Version : Int))
          exact chunkP_mono (chunkP_num _) (by omega)
        · show ChunkP (c.accepts.length + 11)
            (jsonArrChars (c.accepts.map (fun r => requirementJsonChars r)))
            (Json.arr (c.accepts.map (fun r => requirementJson r)))
          exact chunkP_mono harr (by omega)
        · show ChunkP (c.accepts.length + 11) (['n', 'u', 'l', 'l'] : List Char) Json.null
          exact chunkP_mono chunkP_null (by omega)
        · simp at h)
    have h2 : ChunkP (c.accepts.length + 16) (challengeJsonChars c) (challengeJson c) := by
      intro fuel hf rest hrest
      have h3 := h fuel (by simp; omega) rest hrest
      simpa [fieldChunk, challengeJsonChars, challengeJson, herr] using h3
    exact h2
  · have hesafe := herrsafe e herr
    have h := chunkP_obj (c.accepts.length + 11)
      [("x402Version", intDigits (c.x402Version : Int), Json.num (c.x402Version : Int)),
       ("accepts", jsonArrChars (c.accepts.map (fun r => requirementJsonChars r)),
         Json.arr (c.accepts.map (fun r => requirementJson r))),
       ("error", stringifyString e, Json.str e)]
      (by
        intro it hit
        simp only [List.mem_cons, List.mem_singleton] at hit
        rcases hit with rfl | rfl | rfl | h
        · exact (by decide : jsonSafeString "x402Version" = true)
        · exact (by decide : jsonSafeString "accepts" = true)
        · exact (by decide : jsonSafeString "error" = true)
        · simp at h)
      (by
        intro it hit
        simp only [List.mem_cons, List.mem_singleton] at hit
        rcases hit with rfl | rfl | rfl | h
        · show ChunkP (c.accepts.length + 11) (intDigits (c.x402Version : Int))
            (Json.num (c.x402Version : Int))
          exact chunkP_mono (chunkP_num _) (by omega)
        · show ChunkP (c.accepts.length + 11)
            (jsonArrChars (c.accepts.map (fun r => requirementJsonChars r)))
            (Json.arr (c.accepts.map (fun r => requirementJson r)))
          exact chunkP_mono harr (by omega)
        · show ChunkP (c.accepts.length + 11) (stringifyString e) (Json.str e)
          exact chunkP_mono (chunkP_str _ hesafe) (by omega)
        · simp at h)
    have h2 : ChunkP (c.accepts.length + 16) (challengeJsonChars c) (challengeJson c) := by
      intro fuel hf rest hrest
      have h3 := h fuel (by simp; omega) rest hrest
      simpa [fieldChunk, challengeJsonChars, challengeJson, herr] using h3
    exact h2

theorem sepByComma_length_ge (l : List (List Char)) (h : ∀ x ∈ l, 2 ≤ x.length) :
    3 * l.length ≤ (sepByComma l).length + 1 := by
  induction l with
  | nil => simp [sepByComma]
  | cons x ys ih =>
    cases ys with
    | nil =>
      have := h x (by simp)
      simp [sepByComma]
      omega
    | cons y r =>
      have hx := h x (by simp)
      have hih := ih (fun z hz => h z (by simp [hz]))
      rw [show sepByComma (x :: y :: r) = x ++ ',' :: sepByComma (y :: r) from rfl]
      simp only [List.length_append, List.length_cons, List.length_map] at hih ⊢
      omega

theorem proofJsonChars_length (p : PaymentPayload) :
    14 ≤ (proofJsonChars p).length + 1 := by
  have h1 : (stringifyString "x402Version").length = 13 := by decide
  simp only [proofJsonChars, jsonObjChars, sepByComma, jsonField, List.length_append,
    List.length_cons]
  omega

theorem requirementJsonChars_length (r : PaymentRequirement) :
    2 ≤ (requirementJsonChars r).length := by
  simp only [requirementJsonChars, jsonObjChars, List.length_append, List.length_cons]
  omega

theorem challengeJsonChars_length (c : PaymentChallenge) :
    c.accepts.length + 16 ≤ (challengeJsonChars c).length + 1 := by
  have harr := sepByComma_length_ge (c.accepts.map requirementJsonChars)
    (by
      intro x hx
      simp only [List.mem_map] at hx
      obtain ⟨r, hr, rfl⟩ := hx
      exact requirementJsonChars_length r)
  have h1 : (stringifyString "x402Version").length = 13 := by decide
  have h2 : (stringifyString "accepts").length = 9 := by decide
  simp only [List.length_map] at harr
  simp only [challengeJsonChars, jsonObjChars, sepByComma, jsonField, jsonArrChars,
    List.length_append, List.length_cons]
  omega

theorem jsonParse_proofJsonChars (p : PaymentPayload) (hp : proofEncodable p = true) :
    jsonParse (proofJsonChars p) = some (proofJson p) := by
  have h := chunkP_proof p hp ((proofJsonChars p).length + 1)
    (proofJsonChars_length p) [] nonDigitStart_nil
  rw [List.append_nil] at h
  simp [jsonParse, h]

theorem jsonParse_challengeJsonChars (c : PaymentChallenge)
    (hc : challengeEncodable c = true) :
    jsonParse (challengeJsonChars c) = some (challengeJson c) := by
  have h := chunkP_challenge c hc ((challengeJsonChars c).length + 1)
    (challengeJsonChars_length c) [] nonDigitStart_nil
  rw [List.append_nil] at h
  simp [jsonParse, h]

theorem payloadFromJson_payloadJson (q : SolanaPaymentPayload) :
    payloadFromJson (payloadJson q) = some q := by
  simp [payloadFromJson, payloadJson, jObj?, jLookup, jStr?, jInt?]

theorem proofFromJson_proofJson (p : PaymentPayload) :
    proofFromJson (proofJson p) = some p := by
  simp [proofFromJson, proofJson, jObj?, jLookup, jStr?, jNat?,
    payloadFromJson_payloadJson]

theorem requirementFromJson_requirementJson (r : PaymentRequirement) :
    requirementFromJson (requirementJson r) = some r := by
  simp [requirementFromJson, requirementJson, jObj?, jLookup, jStr?]

theorem requirementsFromJson_map (l : List PaymentRequirement) :
    requirementsFromJson (l.map requirementJson) = some l := by
  induction l with
  | nil => rfl
  | cons r rs ih =>
    simp [requirementsFromJson, requirementFromJson_requirementJson, ih]

theorem challengeFromJson_challengeJson (c : PaymentChallenge)
    (hne : c.accepts ≠ []) :
    challengeFromJson (challengeJson c) = some c := by
  obtain ⟨v, acc, err⟩ := c
  simp only [ne_eq] at hne
  rcases err with _ | e <;>
    simp [challengeFromJson, challengeJson, jObj?, jLookup, jArr?, jNat?,
      requirementsFromJson_map, hne]

theorem ascii_stringifyString {s : String} (h : jsonSafeString s = true) :
    ∀ ch ∈ stringifyString s, ch.toNat < 256 := by
  rw [stringifyString_safe h]
  intro ch hch
  simp only [List.cons_append, List.mem_cons, List.mem_append,
    List.mem_singleton] at hch
  rcases hch with rfl | hch | rfl | hch
  · decide
  · have := jsonSafeChar_spec (by
      simp only [jsonSafeString, List.all_eq_true] at h
      exact h ch hch)
    omega
  · decide
  · simp at hch

theorem ascii_natDigits (n : Nat) : ∀ ch ∈ natDigits n, ch.toNat < 256 := by
  intro ch hch
  obtain ⟨d, hd, rfl⟩ := natDigits_digits n ch hch
  rw [digitChar_toNat hd]
  omega

theorem ascii_intDigits (n : Int) : ∀ ch ∈ intDigits n, ch.toNat < 256 := by
  intro ch hch
  by_cases hneg : n < 0
  · simp only [intDigits, hneg, if_true, ite_true, List.mem_cons] at hch
    rcases hch with rfl | hch
    · decide
    · exact ascii_natDigits _ ch hch
  · simp only [intDigits, hneg, if_false, ite_false] at hch
    exact ascii_natDigits _ ch hch

theorem ascii_sepByComma {l : List (List Char)}
    (h : ∀ x ∈ l, ∀ ch ∈ x, ch.toNat < 256) :
    ∀ ch ∈ sepByComma l, ch.toNat < 256 := by
  induction l with
  | nil => simp [sepByComma]
  | cons x ys ih =>
    cases ys with
    | nil =>
      intro ch hch
      exact h x (by simp) ch (by simpa [sepByComma] using hch)
    | cons y r =>
      intro ch hch
      rw [show sepByComma (x :: y :: r) = x ++ ',' :: sepByComma (y :: r) from rfl] at hch
      simp only [List.mem_append, List.mem_cons] at hch
      rcases hch with hch | rfl | hch
      · exact h x (by simp) ch hch
      · decide
      · exact ih (fun z hz => h z (by simp [hz])) ch hch

theorem ascii_jsonField {k : String} {chars : List Char}
    (hk : jsonSafeString k = true) (hv : ∀ ch ∈ chars, ch.toNat < 256) :
    ∀ ch ∈ jsonField k chars, ch.toNat < 256 := by
  intro ch hch
  simp only [jsonField, List.mem_append, List.mem_cons] at hch
  rcases hch with hch | rfl | hch
  · exact ascii_stringifyString hk ch hch
  · decide
  · exact hv ch hch

theorem ascii_jsonObjChars {members : List (List Char)}
    (h : ∀ m ∈ members, ∀ ch ∈ m, ch.toNat < 256) :
    ∀ ch ∈ jsonObjChars members, ch.toNat < 256 := by
  intro ch hch
  simp only [jsonObjChars, List.mem_cons, List.mem_append, List.mem_singleton] at hch
  rcases hch with (rfl | hch) | rfl | hch
  · decide
  · exact ascii_sepByComma h ch hch
  · decide
  · simp at hch

theorem ascii_proofJsonChars (p : PaymentPayload) (hp : proofEncodable p = true) :
    ∀ ch ∈ proofJsonChars p, ch.toNat < 256 := by
  obtain ⟨h1, h2, h3, h4, h5, h6⟩ := proofEncodable_spec hp
  apply ascii_jsonObjChars
  intro m hm
  simp only [List.mem_cons, List.mem_singleton] at hm
  rcases hm with rfl | rfl | rfl | rfl | h
  · exact ascii_jsonField (by decide) (ascii_intDigits _)
  · exact ascii_jsonField (by decide) (ascii_stringifyString h1)
  · exact ascii_jsonField (by decide) (ascii_stringifyString h2)
  · apply ascii_jsonField (by decide)
    apply ascii_jsonObjChars
    intro m2 hm2
    simp only [List.mem_cons, List.mem_singleton] at hm2
    rcases hm2 with rfl | rfl | rfl | rfl | rfl | h
    · exact ascii_jsonField (by decide) (ascii_stringifyString h3)
    · exact ascii_jsonField (by decide) (ascii_stringifyString h4)
    · exact ascii_jsonField (by decide) (ascii_stringifyString h5)
    · exact ascii_jsonField (by decide) (ascii_stringifyString h6)
    · exact ascii_jsonField (by decide) (ascii_intDigits _)
    · simp at h
  · simp at h

theorem b64Val_b64Char {n : Nat} (h : n < 64) : b64Val (b64Char n) = some n := by
  have hall : ∀ m ∈ List.range 64, b64Val (b64Char m) = some m := by decide
  exact hall n (List.mem_range.mpr h)

theorem b64Char_ne_pad {n : Nat} (h : n < 64) : b64Char n ≠ '=' := by
  have hall : ∀ m ∈ List.range 64, b64Char m ≠ '=' := by decide
  exact hall n (List.mem_range.mpr h)

theorem b64_roundtrip : ∀ bytes : List Nat, (∀ b ∈ bytes, b < 256) →
    b64DecodeBytes (b64EncodeBytes bytes) = some bytes
  | [], _ => rfl
  | [b1], h => by
      have hb1 : b1 < 256 := h b1 (by simp)
      have h1 : b1 / 4 < 64 := by omega
      have h2 : b1 % 4 * 16 < 64 := by omega
      simp only [b64EncodeBytes, b64DecodeBytes, b64Val_b64Char h1,
        b64Val_b64Char h2]
      simp
      omega
  | [b1, b2], h => by
      have hb1 : b1 < 256 := h b1 (by simp)
      have hb2 : b2 < 256 := h b2 (by simp)
      have h1 : b1 / 4 < 64 := by omega
      have h2 : b1 % 4 * 16 + b2 / 16 < 64 := by omega
      have h3 : b2 % 16 * 4 < 64 := by omega
      simp only [b64EncodeBytes, b64DecodeBytes, b64Val_b64Char h1,
        b64Val_b64Char h2, b64Val_b64Char h3]
      simp [b64Char_ne_pad h3]
      omega
  | b1 :: b2 :: b3 :: r4 :: rest, h => by
      have ih := b64_roundtrip (r4 :: rest) (fun b hb => h b (by simp [List.mem_cons] at hb ⊢; tauto))
      have hb1 : b1 < 256 := h b1 (by simp)
      have hb2 : b2 < 256 := h b2 (by simp)
      have hb3 : b3 < 256 := h b3 (by simp)
      have h1 : b1 / 4 < 64 := by omega
      have h2 : b1 % 4 * 16 + b2 / 16 < 64 := by omega
      have h3 : b2 % 16 * 4 + b3 / 64 < 64 := by omega
      have h4 : b3 % 64 < 64 := by omega
      simp only [b64EncodeBytes, b64DecodeBytes, b64Val_b64Char h1,
        b64Val_b64Char h2, b64Val_b64Char h3, b64Val_b64Char h4]
      simp [b64Char_ne_pad h4, ih]
      refine ⟨by omega, by omega, by omega⟩
  | [b1, b2, b3], h => by
      have hb1 : b1 < 256 := h b1 (by simp)
      have hb2 : b2 < 256 := h b2 (by simp)
      have hb3 : b3 < 256 := h b3 (by simp)
      have h1 : b1 / 4 < 64 := by omega
      have h2 : b1 % 4 * 16 + b2 / 16 < 64 := by omega
      have h3 : b2 % 16 * 4 + b3 / 64 < 64 := by omega
      have h4 : b3 % 64 < 64 := by omega
      simp only [b64EncodeBytes, b64DecodeBytes, b64Val_b64Char h1,
        b64Val_b64Char h2, b64Val_b64Char h3, b64Val_b64Char h4]
      simp [b64Char_ne_pad h4]
      refine ⟨by omega, by omega, by omega⟩

theorem map_ofNat_toNat (cs : List Char) :
    (cs.map Char.toNat).map Char.ofNat = cs := by
  induction cs with
  | nil => rfl
  | cons c cs ih => simp [ih, Char.ofNat_toNat]

theorem decode_encode_header (p : PaymentPayload) (hp : proofEncodable p = true) :
    decodePaymentHeader (encodePaymentHeader p) = some p := by
  have hb : ∀ b ∈ (proofJsonChars p).map Char.toNat, b < 256 := by
    intro b hbm
    obtain ⟨ch, hch, rfl⟩ := List.mem_map.mp hbm
    exact ascii_proofJsonChars p hp ch hch
  have hmap : List.map (Char.ofNat ∘ Char.toNat) (proofJsonChars p) =
      proofJsonChars p := by
    rw [← List.map_map]; exact map_ofNat_toNat _
  simp [decodePaymentHeader, encodePaymentHeader, b64_roundtrip _ hb,
    map_ofNat_toNat, hmap, jsonParse_proofJsonChars p hp,
    proofFromJson_proofJson p]

theorem decode_encode_challenge (c : PaymentChallenge)
    (hc : challengeEncodable c = true) :
    decodeChallenge (encodeChallenge c) = some c := by
  have hne : c.accepts ≠ [] := by
    simp only [challengeEncodable, Bool.and_eq_true, decide_eq_true_eq] at hc
    exact hc.1.1
  simp [decodeChallenge, encodeChallenge, jsonParse_challengeJsonChars c hc,
    challengeFromJson_challengeJson c hne]

/-- C6: the codec round-trip law: for every payment proof whose fields lie in
the escape-free string fragment, base64-decoding and JSON-parsing the encoded
`X-Payment` header recovers exactly the original proof, and for every valid
challenge (non-empty `accepts`, safe fields), parsing the serialized 402 body
recovers exactly the original challenge. -/
theorem c6_codec_roundtrip :
    (∀ p : PaymentPayload, proofEncodable p = true →
        decodePaymentHeader (encodePaymentHeader p) = some p) ∧
    (∀ c : PaymentChallenge, challengeEncodable c = true →
        decodeChallenge (encodeChallenge c) = some c) :=
  ⟨decode_encode_header, decode_encode_challenge⟩

set_option maxRecDepth 40000 in
/-- C6 witness: the round trip on a concrete devnet proof (87-character
base58 signature) and on the concrete devnet challenge. -/
theorem c6_codec_roundtrip_witness :
    decodePaymentHeader (encodePaymentHeader (proofD sigZ "10000" devnetMint 900)) =
      some (proofD sigZ "10000" devnetMint 900) ∧
    decodeChallenge (encodeChallenge chalD) = some chalD :=
  ⟨c6_codec_roundtrip.1 _ (by decide), c6_codec_roundtrip.2 _ (by decide)⟩
